import Mathlib

/-
Verification development for the MODULE-BASED-SYNTH repository.

The Python sources (src/audio.py, src/core.py, src/lfo.py,
src/noise_sub_module.py, src/config.py) are shallowly embedded below.
Floating-point arithmetic is modelled by exact rationals (ℚ).  Oscillator
phases, which the source tracks in radians, are stored here divided by 2π
(in cycles), so that `x % (2*pi)` becomes the fractional part and every
phase computation stays inside ℚ.  Transcendental functions (sin, 2^x,
cos, random noise, tanh-based effect kernels) cannot be evaluated in ℚ;
they are supplied as explicit function parameters collected in the
`Trans` structure, and every theorem below either holds for all values of
those parameters or only exercises code paths that never consult them.
-/

namespace Synth

/- The arithmetic of ℚ in the supporting library marks its primitive
operations irreducible, which blocks evaluation of decidable propositions;
restoring the default reducibility inside this development lets concrete
program runs be settled by `decide`. -/
attribute [local semireducible] Rat.mul Rat.inv Rat.add Rat.sub

/-- Python-style fractional part: `x % 1.0` (and, for radian phases of the
source, `x % (2*pi)` after the change of units to cycles). -/
def qfrac (x : ℚ) : ℚ := x - ⌊x⌋

/-- numpy `np.clip(x, lo, hi)`. -/
def clip (x lo hi : ℚ) : ℚ := min (max x lo) hi

/-- Python `int(x)`: truncation toward zero. -/
def pyInt (x : ℚ) : ℤ := if 0 ≤ x then ⌊x⌋ else ⌈x⌉

/-- The fixed sample rate 44100 used throughout the source. -/
def sampleRate : ℚ := 44100

/-- Result of the source's `while phase >= 1.0: phase -= 1.0` loop. -/
def wrapDown (x : ℚ) : ℚ := if 1 ≤ x then x - ⌊x⌋ else x

/-- Abstract stand-ins for the transcendental / random computations of the
source, which have no exact rational value.  `sin2pi x` stands for
`sin(2*pi*x)`; `twoPow x` for `2**x`; `gauss i` / `unif i` for the i-th
sample drawn by `np.random.normal` / `np.random.uniform`; `cosW c` for
`cos(w0)` and `alphaW c r` for `sin(w0)/(2*(1-sqrt(r)*0.99))` computed by
`Filter.process` from the (clamped) cutoff `c` and resonance `r`; the four
`*Wet` fields stand for the pure per-call wet computations of the chorus,
flanger, phaser (arguments rate, depth, signal) and distortion (arguments
depth, signal) effects, which mix `np.sin` / `np.tanh` into index and
sample arithmetic.  Every theorem in this file holds for arbitrary values
of these fields unless it only exercises code that ignores them. -/
structure Trans where
  sin2pi : ℚ → ℚ
  twoPow : ℚ → ℚ
  gauss : ℕ → ℚ
  unif : ℕ → ℚ
  cosW : ℚ → ℚ
  alphaW : ℚ → ℚ → ℚ
  chorusWet : ℚ → ℚ → List ℚ → List ℚ
  flangerWet : ℚ → ℚ → List ℚ → List ℚ
  phaserWet : ℚ → ℚ → List ℚ → List ℚ
  distortionWet : ℚ → List ℚ → List ℚ

/-- Waveform names dispatched on by `Oscillator._generate_base_waveform`
(the source uses strings; an unknown string falls back to sine, which this
closed enumeration does not need to model because no claim exercises it). -/
inductive Waveform
  | sine
  | saw
  | triangle
  | pulse
  | noise
deriving DecidableEq, Repr

/-- `Oscillator._generate_base_waveform`, phase argument in cycles
(`c = t/(2*pi)`); the extra `ℕ` argument is the position inside the buffer,
consulted only by the `noise` branch (`np.random.uniform` per element).
`sine` is `sin(t) = sin(2*pi*c)`; `saw` is `2*(t/2pi - floor(0.5 + t/2pi))`;
`triangle` is `2*|saw| - 1`; `pulse` is `+1` when `t % 2pi < pi`, i.e. when
`frac c < 1/2`, else `-1`. -/
def baseWaveform (tr : Trans) : Waveform → ℚ → ℕ → ℚ
  | .sine, c, _ => tr.sin2pi c
  | .saw, c, _ => 2 * (c - ⌊(1 : ℚ)/2 + c⌋)
  | .triangle, c, _ => 2 * |2 * (c - ⌊(1 : ℚ)/2 + c⌋)| - 1
  | .pulse, c, _ => if qfrac c < 1/2 then 1 else -1
  | .noise, _, i => tr.unif i

/-- State of `Oscillator`: fundamental phase and the 8-slot harmonic phase
array `harmonics_phases` (slots 0..6 are used, for overtones 2..8), all in
cycles. -/
structure Oscillator where
  phase : ℚ
  harmonicsPhases : List ℚ
deriving DecidableEq, Repr

def Oscillator.init : Oscillator := ⟨0, List.replicate 8 0⟩

/-- numpy `np.linspace(start, start + freq*n/sampleRate, n, endpoint=False)`
in cycles: the step is `freq/sampleRate` per sample. -/
def linspaceCycles (start freq : ℚ) (n : ℕ) : List ℚ :=
  (List.range n).map (fun (k : ℕ) => start + (k : ℚ) * (freq / sampleRate))

/-- One harmonic pass of `Oscillator.generate` (loop body for overtone `i`,
`i` in 2..8): regenerate the overtone from its own phase accumulator, add it
with weight `harmonics/i`, and store the wrapped phase of the *last emitted
sample* (`harmonic_t[-1] % (2*pi)`). -/
def oscHarmonicStep (tr : Trans) (w : Waveform) (fDet : ℚ) (samples : ℕ)
    (harmonics : ℚ) (acc : List ℚ × List ℚ) (i : ℕ) : List ℚ × List ℚ :=
  let hp := acc.2.getD (i - 2) 0
  let ht := linspaceCycles hp (fDet * i) samples
  let harm := ht.enum.map (fun p => baseWaveform tr w p.2 p.1)
  (List.zipWith (fun a b => a + b * (harmonics / i)) acc.1 harm,
   acc.2.set (i - 2) (qfrac (ht.getLastD hp)))

/-- `Oscillator.generate(frequency, waveform, samples, detune, harmonics)`.
The source wraps the stored phase, detunes the frequency by `2**(detune/12)`
(here `tr.twoPow (detune/12)`), builds the time array with
`endpoint=False`, adds overtones 2..8 when `harmonics > 0`, and stores
`t[-1] % (2*pi)` — the phase of the last emitted sample — as the next
phase.  (`getLastD` supplies the start phase for `samples = 0`, where the
source's `t[-1]` would raise `IndexError`; all theorems use positive
sample counts.) -/
def oscGenerate (tr : Trans) (osc : Oscillator) (frequency : ℚ) (w : Waveform)
    (samples : ℕ) (detune harmonics : ℚ) : Oscillator × List ℚ :=
  let phase0 := qfrac osc.phase
  let fDet := frequency * tr.twoPow (detune / 12)
  let t := linspaceCycles phase0 fDet samples
  let base := t.enum.map (fun p => baseWaveform tr w p.2 p.1)
  let hres :=
    if 0 < harmonics then
      (List.range' 2 7).foldl (oscHarmonicStep tr w fDet samples harmonics)
        (base, osc.harmonicsPhases)
    else (base, osc.harmonicsPhases)
  ({ phase := qfrac (t.getLastD phase0), harmonicsPhases := hres.2 }, hres.1)

/-! ## ADSR envelope (src/audio.py, class ADSR) -/

inductive ADSRState
  | idle
  | attack
  | decay
  | sustain
  | release
deriving DecidableEq, Repr

structure ADSR where
  attack : ℚ
  decay : ℚ
  sustain : ℚ
  release : ℚ
  state : ADSRState
  currentLevel : ℚ
  releaseLevel : ℚ
  elapsedSamples : ℕ
deriving DecidableEq, Repr

def ADSR.init : ADSR :=
  { attack := 1/100, decay := 1/10, sustain := 1/2, release := 1/2,
    state := .idle, currentLevel := 0, releaseLevel := 0, elapsedSamples := 0 }

/-- `ADSR.set_parameters`: floors the time stages at 1 ms and clamps sustain
into [0, 1]. -/
def adsrSetParameters (a : ADSR) (attack decay sustain release : ℚ) : ADSR :=
  { a with attack := max (1/1000) attack, decay := max (1/1000) decay,
           sustain := max 0 (min 1 sustain), release := max (1/1000) release }

/-- `ADSR.gate_on`. -/
def gateOn (a : ADSR) : ADSR := { a with state := .attack, elapsedSamples := 0 }

/-- `ADSR.gate_off`: only a non-idle envelope is moved to release, capturing
the current level. -/
def gateOff (a : ADSR) : ADSR :=
  if a.state ≠ .idle then
    { a with state := .release, releaseLevel := a.currentLevel, elapsedSamples := 0 }
  else a

/-- One iteration of the sample loop in `ADSR.process`: run the state-machine
branch, emit `current_level`, then increment `elapsed_samples`. -/
def adsrStep (a : ADSR) : ADSR × ℚ :=
  let a1 :=
    match a.state with
    | .idle => { a with currentLevel := 0 }
    | .attack =>
      let n := pyInt (a.attack * sampleRate)
      if n ≤ (a.elapsedSamples : ℤ) then { a with state := .decay, elapsedSamples := 0 }
      else { a with currentLevel := (a.elapsedSamples : ℚ) / (n : ℚ) }
    | .decay =>
      let n := pyInt (a.decay * sampleRate)
      if n ≤ (a.elapsedSamples : ℤ) then { a with state := .sustain }
      else { a with currentLevel := 1 + (a.sustain - 1) * ((a.elapsedSamples : ℚ) / (n : ℚ)) }
    | .sustain => { a with currentLevel := a.sustain }
    | .release =>
      let n := pyInt (a.release * sampleRate)
      if n ≤ (a.elapsedSamples : ℤ) then { a with state := .idle, currentLevel := 0 }
      else { a with currentLevel := a.releaseLevel * (1 - (a.elapsedSamples : ℚ) / (n : ℚ)) }
  ({ a1 with elapsedSamples := a1.elapsedSamples + 1 }, a1.currentLevel)

/-- `ADSR.process(num_samples)`: the envelope buffer and the updated
envelope. -/
def adsrProcess : ADSR → ℕ → ADSR × List ℚ
  | a, 0 => (a, [])
  | a, n + 1 =>
    let s := adsrStep a
    let r := adsrProcess s.1 n
    (r.1, s.2 :: r.2)

/-! ## Filter (src/audio.py, class Filter) -/

/-- State of `Filter`.  The filter type is kept as the raw string the source
dispatches on (any string is accepted by `set_parameters`); `z1`/`z2` are the
four-stage delay lines. -/
structure Filter where
  cutoff : ℚ
  resonance : ℚ
  filterType : String
  steepness : ℚ
  harmonics : ℚ
  z1 : List ℚ
  z2 : List ℚ
deriving DecidableEq, Repr

def Filter.init : Filter :=
  { cutoff := 1, resonance := 0, filterType := "lowpass", steepness := 1,
    harmonics := 0, z1 := List.replicate 4 0, z2 := List.replicate 4 0 }

/-- `Filter.resonance_scale` (constant 5.0 in the source). -/
def resonanceScale : ℚ := 5

/-- `Filter.cutoff_scale` (constant 4.0 in the source). -/
def cutoffScale : ℚ := 4

/-- `Filter.set_parameters`: clamps cutoff into [0.01, 0.99], resonance into
[0, 0.99], steepness into [1, 4] and harmonics into [0, 1]; the type string
is stored unvalidated. -/
def filterSetParameters (f : Filter) (cutoff resonance : ℚ) (ftype : String)
    (steepness harmonics : ℚ) : Filter :=
  { f with cutoff := clip cutoff (1/100) (99/100),
           resonance := clip resonance 0 (99/100),
           filterType := ftype,
           steepness := clip steepness 1 4,
           harmonics := clip harmonics 0 1 }

/-- Normalized biquad coefficients `(b0, b1, b2, a1, a2)` of
`Filter.process`, given the values `cosw0` and `alpha` of the two
transcendental subexpressions.  For a type string other than the three
known ones the source leaves `b0`, `b1`, `b2` unbound and
`b0 /= a0` raises `UnboundLocalError`; that fault is `none` here. -/
def filterCoeffs (cosw0 alpha : ℚ) (ftype : String) : Option (ℚ × ℚ × ℚ × ℚ × ℚ) :=
  let a0 := 1 + alpha * resonanceScale
  let a1 := -2 * cosw0
  let a2 := 1 - alpha * resonanceScale
  let bs : Option (ℚ × ℚ × ℚ) :=
    if ftype = "lowpass" then
      some ((1 - cosw0) / 2 * cutoffScale, (1 - cosw0) * cutoffScale, (1 - cosw0) / 2 * cutoffScale)
    else if ftype = "highpass" then
      some ((1 + cosw0) / 2 * cutoffScale, -((1 + cosw0) * cutoffScale), (1 + cosw0) / 2 * cutoffScale)
    else if ftype = "bandpass" then
      some (alpha * cutoffScale, 0, -(alpha * cutoffScale))
    else none
  bs.map (fun b => (b.1 / a0, b.2.1 / a0, b.2.2 / a0, a1 / a0, a2 / a0))

/-- Inner sample loop of one filter stage: note that the source updates the
delay line with the stage *input* sample (`self.z1[stage] = output[i]`), not
with the freshly computed output. -/
def filterStage (b0 b1 b2 a1 a2 : ℚ) : List ℚ → ℚ → ℚ → List ℚ × ℚ × ℚ
  | [], z1, z2 => ([], z1, z2)
  | x :: rest, z1, z2 =>
    let y := b0 * x + b1 * z1 + b2 * z2 - a1 * z1 - a2 * z2
    let r := filterStage b0 b1 b2 a1 a2 rest x z1
    (y :: r.1, r.2)

/-- The `for stage in range(stages)` cascade of `Filter.process`, each stage
reading and writing its own slot of the `z1`/`z2` arrays. -/
def filterRunStages (b0 b1 b2 a1 a2 : ℚ) (stages : ℕ) (signal z1 z2 : List ℚ) :
    List ℚ × List ℚ × List ℚ :=
  (List.range stages).foldl
    (fun acc stage =>
      let r := filterStage b0 b1 b2 a1 a2 acc.1 (acc.2.1.getD stage 0) (acc.2.2.getD stage 0)
      (r.1, acc.2.1.set stage r.2.1, acc.2.2.set stage r.2.2))
    (signal, z1, z2)

/-- `Filter.process(signal)`: biquad cascade over `int(steepness)` stages
followed by the final gain trim `*(1 - cutoff*0.5)`.  `cosw0` and `alpha`
are the transcendental subexpressions (see `Trans`); an unrecognized filter
type string raises in the source and is `none` here. -/
def filterProcess (cosw0 alpha : ℚ) (f : Filter) (signal : List ℚ) :
    Option (Filter × List ℚ) :=
  match filterCoeffs cosw0 alpha f.filterType with
  | none => none
  | some c =>
    let stages := (pyInt f.steepness).toNat
    let r := filterRunStages c.1 c.2.1 c.2.2.1 c.2.2.2.1 c.2.2.2.2 stages signal f.z1 f.z2
    some ({ f with z1 := r.2.1, z2 := r.2.2 },
          r.1.map (fun x => x * (1 - f.cutoff * (1/2))))

/-! ## Noise / sub-oscillator module (src/noise_sub_module.py, class NoiseSubModule) -/

structure NoiseSubModule where
  noiseLevel : ℚ
  subAmount : ℚ
  harmonics : ℚ
  inharmonicity : ℚ
deriving DecidableEq, Repr

def NoiseSubModule.init : NoiseSubModule := ⟨0, 0, 0, 0⟩

/-- `NoiseSubModule.set_parameters`. -/
def noiseSubSetParameters (m : NoiseSubModule)
    (noiseAmount subAmount harmonics inharmonicity : ℚ) : NoiseSubModule :=
  { m with noiseLevel := noiseAmount, subAmount := subAmount,
           harmonics := harmonics, inharmonicity := inharmonicity }

/-- numpy `np.sin(2*pi*f*np.arange(frames)/44100)` with `sin2pi` standing for
`x mapsto sin(2*pi*x)`. -/
def sineArr (sin2pi : ℚ → ℚ) (f : ℚ) (frames : ℕ) : List ℚ :=
  (List.range frames).map (fun (i : ℕ) => sin2pi (f * (i : ℚ) / sampleRate))

/-- `NoiseSubModule.generate(main_signal, frequency, frames)`: optional sine
sub-oscillator at `frequency/2`, overtones 2..4 weighted `harmonics/i`, one
inharmonic partial at `frequency*(1+inharmonicity)`, plus Gaussian noise
scaled by the noise level; partial phases are taken from the absolute sample
index inside the call (no persisted phase). -/
def noiseSubGenerate (tr : Trans) (m : NoiseSubModule) (mainSignal : List ℚ)
    (frequency : ℚ) (frames : ℕ) : List ℚ :=
  let noise := (List.range frames).map (fun i => tr.gauss i * m.noiseLevel)
  let s1 :=
    if 0 < m.subAmount then
      List.zipWith (fun x s => x + s * m.subAmount) mainSignal
        (sineArr tr.sin2pi (frequency / 2) frames)
    else mainSignal
  let s2 :=
    if 0 < m.harmonics then
      (List.range' 2 3).foldl
        (fun acc (i : ℕ) =>
          List.zipWith (fun x s => x + s * (m.harmonics / (i : ℚ))) acc
            (sineArr tr.sin2pi (frequency * (i : ℚ)) frames))
        s1
    else s1
  let s3 :=
    if 0 < m.inharmonicity then
      List.zipWith (fun x s => x + s * m.inharmonicity) s2
        (sineArr tr.sin2pi (frequency * (1 + m.inharmonicity)) frames)
    else s2
  List.zipWith (· + ·) s3 noise

/-! ## Shared configuration (src/config.py, ModuleState) and LFO
(src/lfo.py) -/

/-- `PARAMETER_RANGES` of src/lfo.py. -/
def parameterRanges (name : String) : Option (ℚ × ℚ) :=
  if name = "cutoff" then some (20, 20000)
  else if name = "resonance" then some (0, 100)
  else if name = "volume" then some (0, 100)
  else if name = "pan" then some (-100, 100)
  else if name = "pitch" then some (-12, 12)
  else if name = "filter_env" then some (0, 100)
  else if name = "amp_env" then some (0, 100)
  else if name = "osc1_level" then some (0, 100)
  else if name = "osc2_level" then some (0, 100)
  else if name = "osc3_level" then some (0, 100)
  else if name = "sub_level" then some (0, 100)
  else if name = "noise_level" then some (0, 100)
  else none

/-- LFO waveform names (strings in the source; anything not sine/triangle/
square falls to the saw branch, so the enumeration is exhaustive). -/
inductive LFOWave
  | sine
  | triangle
  | square
  | saw
deriving DecidableEq, Repr

/-- Exact value of numpy `np.sign(np.sin(2*pi*t))` for rational `t`:
`sin(2*pi*t)` vanishes exactly when `t` is a half-integer and is positive
exactly when `frac t` lies in `(0, 1/2)`. -/
def sgnSin2pi (t : ℚ) : ℚ :=
  if qfrac t = 0 ∨ qfrac t = 1/2 then 0 else if qfrac t < 1/2 then 1 else -1

/-- Raw (pre-depth, pre-offset) LFO waveform value at phase `t` (the LFO
phase is already in cycles in the source). -/
def lfoRaw (tr : Trans) : LFOWave → ℚ → ℚ
  | .sine, t => tr.sin2pi t
  | .triangle, t => 2 * |2 * (t - ⌊t + (1 : ℚ)/2⌋)| - 1
  | .square, t => sgnSin2pi t
  | .saw, t => 2 * (t - ⌊t⌋) - 1

/-- State of `LFO`.  `targets` models the source dictionary
`{name: (base_value, name)}` — the stored "param type" is always the target
name itself — as an association list in insertion order. -/
structure LFO where
  frequency : ℚ
  waveform : LFOWave
  offset : ℚ
  depth : ℚ
  phase : ℚ
  enabled : Bool
  bypassed : Bool
  targets : List (String × ℚ)
deriving DecidableEq, Repr

def LFO.init : LFO :=
  { frequency := 1, waveform := .sine, offset := 0, depth := 1, phase := 0,
    enabled := true, bypassed := false, targets := [] }

/-- `LFO.add_target`. -/
def lfoAddTarget (l : LFO) (name : String) (base : ℚ) : LFO :=
  { l with targets :=
      if l.targets.any (fun p => p.1 == name) then
        l.targets.map (fun p => if p.1 == name then (p.1, base) else p)
      else l.targets ++ [(name, base)] }

/-- `LFO.remove_target`. -/
def lfoRemoveTarget (l : LFO) (name : String) : LFO :=
  { l with targets := l.targets.filter (fun p => ¬p.1 == name) }

def lfoHasTarget (l : LFO) (name : String) : Bool :=
  l.targets.any (fun p => p.1 == name)

/-- Dynamically-addressed numeric attributes of the shared `STATE` object:
the LFO reaches them through `hasattr`/`setattr` by name, which this
embedding models as an association list (each name occurring at most
once, as Python object attributes do). -/
def DynState := List (String × ℚ)

/-- Python `getattr`: the value stored under `name`, if any. -/
def stateGet (st : List (String × ℚ)) (name : String) : Option ℚ :=
  (st.find? (fun p => p.1 == name)).map (fun p => p.2)

/-- Python `setattr` on an existing attribute: replace the first binding. -/
def stateSet : List (String × ℚ) → String → ℚ → List (String × ℚ)
  | [], _, _ => []
  | p :: rest, n, v =>
    if p.1 == n then (p.1, v) :: rest else p :: stateSet rest n v

/-- The target-write loop shared by `LFO.process` and `LFO.generate`: for
each registered target whose name exists on `STATE`, compute a value and
write it; `vf` returning `none` models skipping the write (see the callers
for the corresponding source behaviour). -/
def writeStep (vf : String → ℚ → Option ℚ) (s : List (String × ℚ))
    (t : String × ℚ) : List (String × ℚ) :=
  if (stateGet s t.1).isSome then
    match vf t.1 t.2 with
    | some v => stateSet s t.1 v
    | none => s
  else s

def writeTargets (vf : String → ℚ → Option ℚ) (targets : List (String × ℚ))
    (st : List (String × ℚ)) : List (String × ℚ) :=
  targets.foldl (writeStep vf) st

/-- `LFO._scale_value(raw_value, param_type)`: names without a known range
pass the raw value through; known ranges are mapped to
`center + raw*range_half*depth` and clamped. -/
def scaleValue (depth raw : ℚ) (paramType : String) : ℚ :=
  match parameterRanges paramType with
  | none => raw
  | some r => clip ((r.2 + r.1) / 2 + raw * ((r.2 - r.1) / 2) * depth) r.1 r.2

/-- `LFO.process()`: scalar LFO step that advances the phase by
`frequency/sample_rate` (single conditional wrap) and writes
`clip(base + value*(max-min)*depth/2, min, max)` to each registered target
present on `STATE`, where `value` is the depth-and-offset-scaled sample.
A target name missing from `PARAMETER_RANGES` raises `KeyError` in the
source; the embedding skips such a write (no theorem exercises that path). -/
def lfoProcess (tr : Trans) (l : LFO) (st : List (String × ℚ)) :
    LFO × List (String × ℚ) :=
  if ¬l.enabled ∨ l.bypassed then (l, st)
  else
    let value := lfoRaw tr l.waveform l.phase
    let ph0 := l.phase + l.frequency / sampleRate
    let ph := if 1 ≤ ph0 then ph0 - 1 else ph0
    let value := value * l.depth + l.offset
    let st' := writeTargets
      (fun name base =>
        (parameterRanges name).map
          (fun r => clip (base + value * (r.2 - r.1) * l.depth / 2) r.1 r.2))
      l.targets st
    ({ l with phase := ph }, st')

/-- `LFO.generate(buffer_size)`: vector LFO step.  Builds the buffer with
`endpoint=False`, stores `t[-1]` (wrapped down by the `while` loop) as the
next phase, applies depth and offset, and writes
`_scale_value(values[-1], name)` — centered on the *parameter range*, not on
the stored base value — to each registered target present on `STATE`.
(`getLastD` covers `buffer_size = 0`, where the source raises; theorems use
positive sizes.) -/
def lfoGenerate (tr : Trans) (l : LFO) (st : List (String × ℚ)) (bufferSize : ℕ) :
    LFO × List (String × ℚ) × List ℚ :=
  if l.bypassed then (l, st, List.replicate bufferSize 0)
  else
    let t := (List.range bufferSize).map
      (fun (k : ℕ) => l.phase + (k : ℚ) * (l.frequency / sampleRate))
    let values := (t.map (lfoRaw tr l.waveform)).map (fun v => v * l.depth + l.offset)
    let lastv := values.getLastD 0
    let st' := writeTargets (fun name _ => some (scaleValue l.depth lastv name)) l.targets st
    ({ l with phase := wrapDown (t.getLastD l.phase) }, st', values)

/-! ## Shared configuration structure (the fields of the global `STATE`
object that the engine reads) -/

/-- One effect slot of `STATE.fx_slots` (type string plus depth/rate/mix). -/
structure FxSlot where
  ftype : String
  depth : ℚ
  rate : ℚ
  mix : ℚ
deriving DecidableEq, Repr

/-- Per-stage flags of `STATE.chain_enabled` / `STATE.chain_bypass`. -/
structure ChainFlags where
  oscillators : Bool
  noiseSub : Bool
  mixer : Bool
  envelope : Bool
  filter : Bool
  effects : Bool
  amp : Bool
deriving DecidableEq, Repr

/-- `STATE.input_source` (string 'midi' or 'sequencer' in the source). -/
inductive InputSource
  | midi
  | sequencer
deriving DecidableEq, Repr

/-- The fields of the shared `STATE` object consulted by the engine, plus
`dyn` for the dynamically-named numeric attributes that the LFO router
addresses through `hasattr`/`setattr` (an association list, each name bound
at most once, like Python attributes). -/
structure SynthState where
  lfoDepth : ℚ
  inputSource : InputSource
  sequencerEnabled : Bool
  sequencerNotes : List (Option ℤ)
  chainEnabled : ChainFlags
  chainBypass : ChainFlags
  oscMix : List ℚ
  oscWaveforms : List Waveform
  oscDetune : List ℚ
  oscHarmonics : List ℚ
  noiseAmount : ℚ
  subAmount : ℚ
  noiseHarmonics : ℚ
  noiseInharmonicity : ℚ
  filterCutoff : ℚ
  filterRes : ℚ
  filterType : String
  filterSteepness : ℚ
  filterHarmonics : ℚ
  masterGain : ℚ
  fxSlots : List FxSlot
  dyn : List (String × ℚ)
deriving DecidableEq, Repr

/-- A concrete configuration used by witnesses: every chain stage enabled,
nothing bypassed, MIDI input, neutral parameters. -/
def stDefault : SynthState :=
  { lfoDepth := 1, inputSource := .midi, sequencerEnabled := false,
    sequencerNotes := [],
    chainEnabled := ⟨true, true, true, true, true, true, true⟩,
    chainBypass := ⟨false, false, false, false, false, false, false⟩,
    oscMix := [0, 0, 0, 0, 0], oscWaveforms := [.sine, .saw, .triangle, .pulse, .sine],
    oscDetune := [0, 0, 0, 0, 0], oscHarmonics := [0, 0, 0, 0, 0],
    noiseAmount := 0, subAmount := 0, noiseHarmonics := 0, noiseInharmonicity := 0,
    filterCutoff := 1, filterRes := 0, filterType := "lowpass",
    filterSteepness := 1, filterHarmonics := 0, masterGain := 1,
    fxSlots := [], dyn := [] }

/-! ## Voice (src/core.py, class Voice) -/

structure Voice where
  note : Option ℤ
  velocity : ℚ
  active : Bool
  oscillators : List Oscillator
  adsr : ADSR
  filter : Filter
  noiseSub : NoiseSubModule
  sequencerStep : ℕ
  sequencerTime : ℕ
  stepDuration : ℕ
  lfo : LFO
deriving DecidableEq, Repr

def Voice.init : Voice :=
  { note := none, velocity := 0, active := false,
    oscillators := List.replicate 5 Oscillator.init, adsr := ADSR.init,
    filter := Filter.init, noiseSub := NoiseSubModule.init,
    sequencerStep := 0, sequencerTime := 0, stepDuration := 44100,
    lfo := LFO.init }

/-- `Voice.reset`: clear note/velocity/active and call `gate_off` on the
envelope (which moves a non-idle envelope to release, not to idle; filter
and oscillator state persist). -/
def voiceReset (v : Voice) : Voice :=
  { v with note := none, velocity := 0, active := false, adsr := gateOff v.adsr }

/-- Sequencer section of `Voice.process` (src/core.py lines 59-71): `none`
models the early `return np.zeros(frames)` taken when no sequencer notes
are set; otherwise the possibly-retriggered voice. -/
def seqStep (st : SynthState) (v : Voice) (frames : ℕ) : Option Voice :=
  if st.inputSource = .sequencer ∧ st.sequencerEnabled then
    if st.sequencerNotes.length = 0 ∨ st.sequencerNotes.headD none = none then none
    else
      let t := v.sequencerTime + frames
      if v.stepDuration ≤ t then
        let step := (v.sequencerStep + 1) % st.sequencerNotes.length
        some { v with sequencerTime := 0, sequencerStep := step,
                      note := st.sequencerNotes.getD step none,
                      velocity := 8/10, adsr := gateOn v.adsr }
      else if (8/10 : ℚ) * v.stepDuration ≤ (t : ℚ) then
        some { v with sequencerTime := t, adsr := gateOff v.adsr }
      else some { v with sequencerTime := t }
  else some v

/-- The per-oscillator name `f'osc{i+1}_mix'` checked against the voice
LFO's targets (only slots 0..4 exist). -/
def oscMixName (i : ℕ) : String :=
  match i with
  | 0 => "osc1_mix"
  | 1 => "osc2_mix"
  | 2 => "osc3_mix"
  | 3 => "osc4_mix"
  | 4 => "osc5_mix"
  | _ => ""

/-- Oscillator-bank section of `Voice.process`: accumulate every oscillator
whose configured mix exceeds 0.001, weighted by mix (possibly modulated per
sample by the voice LFO) and velocity.  Out-of-range reads of the
configuration lists (the source would raise `IndexError`) use defaults;
no theorem exercises short lists. -/
def voiceOscSection (tr : Trans) (st : SynthState) (lfo : LFO) (velocity : ℚ)
    (frequency : ℚ) (frames : ℕ) (lfoValues : List ℚ) (oscs : List Oscillator) :
    List Oscillator × List ℚ :=
  let r := oscs.enum.foldl
    (fun (acc : List Oscillator × List ℚ) p =>
      let i := p.1
      if 1/1000 < st.oscMix.getD i 0 then
        let g := oscGenerate tr p.2 frequency (st.oscWaveforms.getD i .sine) frames
          (st.oscDetune.getD i 0) (st.oscHarmonics.getD i 0)
        let contrib :=
          if lfoHasTarget lfo (oscMixName i) then
            List.zipWith (fun s lv => s * (st.oscMix.getD i 0 * (1 + lv)) * velocity)
              g.2 lfoValues
          else g.2.map (fun s => s * st.oscMix.getD i 0 * velocity)
        (acc.1 ++ [g.1], List.zipWith (· + ·) acc.2 contrib)
      else (acc.1 ++ [p.2], acc.2))
    ([], List.replicate frames 0)
  r

/-- `Voice.process(frames)` (src/core.py lines 44-154).  Returns `none` when
the source would raise out of the call: either the array-valued frequency
produced when `'pitch'` is among the voice LFO's targets (the oscillator
`np.linspace` then yields a 2-D array whose accumulation raises
`ValueError`), or an unknown filter type string.  The mixer, effects and
amp stages of the chain are identity/no-op in the source and contribute
nothing. -/
def voiceProcess (tr : Trans) (st : SynthState) (v : Voice) (frames : ℕ) :
    Option (Voice × SynthState × List ℚ) :=
  if v.active = false ∧ v.adsr.state = .idle then some (v, st, List.replicate frames 0)
  else
    let g := lfoGenerate tr v.lfo st.dyn frames
    let st1 := { st with dyn := g.2.1 }
    let lfoValues := g.2.2.map (· * st1.lfoDepth)
    let v1 := { v with lfo := g.1 }
    match seqStep st1 v1 frames with
    | none => some (v1, st1, List.replicate frames 0)
    | some v2 =>
      match v2.note with
      | none => some (v2, st1, List.replicate frames 0)
      | some nt =>
        if lfoHasTarget v2.lfo "pitch" then none
        else
          let frequency := 440 * tr.twoPow (((nt : ℚ) - 69) / 12)
          let osc :=
            if st1.chainEnabled.oscillators ∧ ¬st1.chainBypass.oscillators then
              voiceOscSection tr st1 v2.lfo v2.velocity frequency frames lfoValues
                v2.oscillators
            else (v2.oscillators, List.replicate frames 0)
          let ns :=
            if st1.chainEnabled.noiseSub ∧ ¬st1.chainBypass.noiseSub then
              let m := noiseSubSetParameters v2.noiseSub st1.noiseAmount st1.subAmount
                st1.noiseHarmonics st1.noiseInharmonicity
              (m, noiseSubGenerate tr m osc.2 frequency frames)
            else (v2.noiseSub, osc.2)
          let env :=
            if st1.chainEnabled.envelope ∧ ¬st1.chainBypass.envelope then
              let a := adsrProcess v2.adsr frames
              (a.1, List.zipWith (· * ·) ns.2 a.2)
            else (v2.adsr, ns.2)
          let fil :=
            if st1.chainEnabled.filter ∧ ¬st1.chainBypass.filter then
              let f1 := filterSetParameters v2.filter st1.filterCutoff st1.filterRes
                st1.filterType st1.filterSteepness st1.filterHarmonics
              filterProcess (tr.cosW f1.cutoff) (tr.alphaW f1.cutoff f1.resonance) f1 env.2
            else some (v2.filter, env.2)
          match fil with
          | none => none
          | some fr =>
            let active' := if env.1.state = .idle then false else v2.active
            let v3 := { v2 with oscillators := osc.1, noiseSub := ns.1, adsr := env.1, filter := fr.1, active := active' }
            some (v3, st1, fr.2)

/-! ## Voice pool (src/core.py, class Synthesizer) -/

/-- Python `min` key `lambda v: v.note if v.active else float('inf')`.
An active voice without a note would make the source's `min` raise
`TypeError`; every theorem that reaches the steal branch assumes all active
voices hold notes, where the `⊤` placed here is never consulted. -/
def stealKey (v : Voice) : WithTop ℤ :=
  if v.active then
    match v.note with
    | some n => (n : WithTop ℤ)
    | none => ⊤
  else ⊤

/-- The iteration of Python's `min`: strictly smaller keys replace the best
index seen so far, so the first occurrence of the minimum wins.  `i` is the
index of the head of the remaining list, `bi`/`bk` the best index and key. -/
def pyArgminAux : List (WithTop ℤ) → ℕ → ℕ → WithTop ℤ → ℕ
  | [], _, bi, _ => bi
  | k :: rest, i, bi, bk =>
    if k < bk then pyArgminAux rest (i + 1) i k else pyArgminAux rest (i + 1) bi bk

/-- Index returned by Python `min(keys)` (first occurrence of the minimum);
only meaningful for nonempty lists. -/
def pyArgmin (ks : List (WithTop ℤ)) : ℕ :=
  match ks with
  | [] => 0
  | k :: rest => pyArgminAux rest 1 0 k

/-- `Synthesizer._find_free_voice` as an index into the pool: the first
inactive voice if any, else Python `min` over the steal keys. -/
def findFreeVoiceIdx (vs : List Voice) : Option ℕ :=
  match vs.findIdx? (fun v => !v.active) with
  | some i => some i
  | none =>
    match vs with
    | [] => none
    | v :: rest => some (pyArgminAux (rest.map stealKey) 1 0 (stealKey v))

/-- Replace the element at index `i` by `f` applied to it (identity when the
index is out of range): the effect of Python mutating the object returned by
`_find_free_voice`. -/
def listModify : List Voice → ℕ → (Voice → Voice) → List Voice
  | [], _, _ => []
  | v :: rest, 0, f => f v :: rest
  | v :: rest, i + 1, f => v :: listModify rest i f

/-- The field assignments `Synthesizer.note_on` performs on the acquired
voice. -/
def assignVoice (note velocity : ℤ) (v : Voice) : Voice :=
  { v with note := some note, velocity := (velocity : ℚ) / 127, active := true,
           adsr := gateOn v.adsr }

/-- `Synthesizer.note_on(note, velocity)` restricted to the voice pool. -/
def noteOn (vs : List Voice) (note velocity : ℤ) : List Voice :=
  match findFreeVoiceIdx vs with
  | none => vs
  | some i => listModify vs i (assignVoice note velocity)

/-- `Synthesizer.note_off(note)`: `gate_off` the first active voice holding
the note (the `break` in the source), leaving everything else untouched. -/
def noteOff : List Voice → ℤ → List Voice
  | [], _ => []
  | v :: rest, n =>
    if v.note = some n ∧ v.active = true then { v with adsr := gateOff v.adsr } :: rest
    else v :: noteOff rest n

/-- `Synthesizer.reset_all_voices`. -/
def resetAllVoices (vs : List Voice) : List Voice := vs.map voiceReset

/-! ## Master effects chain (src/core.py, process_effects and helpers) -/

/-- Effect-owned delay and reverb state of `Synthesizer` (1-second delay
buffer, 2-second reverb buffer, write indices). -/
structure SynthFx where
  delayBuffer : List ℚ
  delayIndex : ℕ
  reverbBuffer : List ℚ
  reverbIndex : ℕ
deriving DecidableEq, Repr

def SynthFx.init : SynthFx :=
  { delayBuffer := List.replicate 44100 0, delayIndex := 0,
    reverbBuffer := List.replicate 88200 0, reverbIndex := 0 }

/-- Sample loop of `Synthesizer._process_delay`: on sample `i` the read
index is `(delay_index - delay_samples + i) % len` with the *current*
(already advanced) write index, exactly as in the source. -/
def processDelayLoop (feedback : ℚ) (ds : ℤ) :
    List ℚ → ℕ → List ℚ → ℕ → List ℚ × List ℚ × ℕ
  | [], _, buf, idx => ([], buf, idx)
  | x :: rest, i, buf, idx =>
    let len := buf.length
    let ri := (((idx : ℤ) - ds + i).emod len).toNat
    let o := buf.getD ri 0
    let buf' := buf.set idx (x + o * feedback)
    let r := processDelayLoop feedback ds rest (i + 1) buf' ((idx + 1) % len)
    (o :: r.1, r.2)

/-- Sample loop of `Synthesizer._process_reverb`: read three taps behind the
write index, decay their sum, emit it, and feed back `signal + reverb*0.6`. -/
def processReverbLoop (decay : ℚ) (offs : List ℤ) :
    List ℚ → List ℚ → ℕ → List ℚ × List ℚ × ℕ
  | [], buf, idx => ([], buf, idx)
  | x :: rest, buf, idx =>
    let len := buf.length
    let rv := (offs.foldl (fun acc o => acc + buf.getD ((((idx : ℤ) - o).emod len).toNat) 0) 0) * decay
    let buf' := buf.set idx (x + rv * (6/10))
    let r := processReverbLoop decay offs rest buf' ((idx + 1) % len)
    (rv :: r.1, r.2)

/-- Wet signal of one effect slot, dispatching on the slot's type string as
`process_effects` does.  Delay and reverb are exact; chorus, flanger,
phaser and distortion are the corresponding `Trans` fields (they are pure
per-call computations in the source).  A type string not in the dispatch
chain leaves `effect_out` at `np.zeros_like(output)`. -/
def effectWet (tr : Trans) (fx : SynthFx) (slot : FxSlot) (signal : List ℚ) :
    SynthFx × List ℚ :=
  if slot.ftype = "chorus" then (fx, tr.chorusWet slot.rate slot.depth signal)
  else if slot.ftype = "flanger" then (fx, tr.flangerWet slot.rate slot.depth signal)
  else if slot.ftype = "phaser" then (fx, tr.phaserWet slot.rate slot.depth signal)
  else if slot.ftype = "reverb" then
    let rs := pyInt (slot.rate * sampleRate)
    let r := processReverbLoop slot.depth [rs.fdiv 4, rs.fdiv 2, (rs * 3).fdiv 4]
      signal fx.reverbBuffer fx.reverbIndex
    ({ fx with reverbBuffer := r.2.1, reverbIndex := r.2.2 }, r.1)
  else if slot.ftype = "delay" then
    let ds := pyInt (slot.rate * sampleRate)
    let r := processDelayLoop slot.depth ds signal 0 fx.delayBuffer fx.delayIndex
    ({ fx with delayBuffer := r.2.1, delayIndex := r.2.2 }, r.1)
  else if slot.ftype = "distortion" then (fx, tr.distortionWet slot.depth signal)
  else (fx, List.replicate signal.length 0)

/-- `Synthesizer.process_effects(signal)`: apply each non-'none' slot in
order with dry/wet mixing `output*(1-mix) + wet*mix`, then clip the final
result to [-1, 1]. -/
def processEffects (tr : Trans) (fx : SynthFx) (slots : List FxSlot)
    (signal : List ℚ) : SynthFx × List ℚ :=
  let r := slots.foldl
    (fun (acc : SynthFx × List ℚ) slot =>
      if slot.ftype = "none" then acc
      else
        let w := effectWet tr acc.1 slot acc.2
        (w.1, List.zipWith (fun d e => d * (1 - slot.mix) + e * slot.mix) acc.2 w.2))
    (fx, signal)
  (r.1, r.2.map (fun x => clip x (-1) 1))

/-! ## Audio callback (src/core.py, Synthesizer._audio_callback) -/

/-- The voice loop of the audio callback: process every *active* voice,
count and sum the voices whose buffer is not identically zero, and thread
the shared state through.  A voice-processing fault aborts the whole body
(`none`). -/
def voiceLoop (tr : Trans) (frames : ℕ) :
    SynthState → List Voice → Option (SynthState × List Voice × List ℚ × ℕ)
  | st, [] => some (st, [], List.replicate frames 0, 0)
  | st, v :: rest =>
    if v.active then
      match voiceProcess tr st v frames with
      | none => none
      | some p =>
        match voiceLoop tr frames p.2.1 rest with
        | none => none
        | some r =>
          if p.2.2.any (fun x => decide (x ≠ 0)) then
            some (r.1, p.1 :: r.2.1, List.zipWith (· + ·) r.2.2.1 p.2.2, r.2.2.2 + 1)
          else some (r.1, p.1 :: r.2.1, r.2.2.1, r.2.2.2)
    else
      match voiceLoop tr frames st rest with
      | none => none
      | some r => some (r.1, v :: r.2.1, r.2.2.1, r.2.2.2)

/-- Engine-owned state manipulated by the audio callback. -/
structure Synthesizer where
  voices : List Voice
  lfo : LFO
  fx : SynthFx
deriving DecidableEq, Repr

/-- The pool as constructed by `Synthesizer.__init__` (MAX_VOICES = 16). -/
def Synthesizer.init : Synthesizer :=
  { voices := List.replicate 16 Voice.init, lfo := LFO.init, fx := SynthFx.init }

/-- Everything inside the `try:` of `_audio_callback`, for a mono stream:
run the master LFO (`generate` then `process`), process and mix the active
voices, normalize by `max(1, active_count)`, clip to [-1, 1], apply master
gain, and run the effects chain when enabled; with no contributing voice
the buffer stays all-zero.  `none` models any exception escaping the body. -/
def audioCallbackBody (tr : Trans) (st : SynthState) (syn : Synthesizer)
    (frames : ℕ) : Option (SynthState × Synthesizer × List ℚ) :=
  let g := lfoGenerate tr syn.lfo st.dyn frames
  let p := lfoProcess tr g.1 g.2.1
  let st2 := { st with dyn := p.2 }
  match voiceLoop tr frames st2 syn.voices with
  | none => none
  | some r =>
    let st3 := r.1
    let cnt := r.2.2.2
    let output :=
      if 0 < cnt then
        ((r.2.2.1.map (fun x => clip (x / max 1 (cnt : ℚ)) (-1) 1)).map (· * st3.masterGain))
      else List.replicate frames 0
    if 0 < cnt ∧ st3.chainEnabled.effects ∧ ¬st3.chainBypass.effects then
      let e := processEffects tr syn.fx st3.fxSlots output
      some (st3, { syn with lfo := p.1, voices := r.2.1, fx := e.1 }, e.2)
    else some (st3, { syn with lfo := p.1, voices := r.2.1 }, output)

/-- `_audio_callback` as seen by the audio sink: the buffer written into
`outdata`.  The `except` handlers catch every `Exception` raised while the
buffer is being built and substitute silence (`outdata.fill(0)`). -/
def audioCallback (tr : Trans) (st : SynthState) (syn : Synthesizer)
    (frames : ℕ) : List ℚ :=
  match audioCallbackBody tr st syn frames with
  | some r => r.2.2
  | none => List.replicate frames 0

/-! ## Mixing law of the callback with voice outputs abstracted
(src/core.py lines 431-449) -/

/-- numpy `np.any(buf != 0)`. -/
def isNonzeroBuf (l : List ℚ) : Bool := l.any (fun x => decide (x ≠ 0))

/-- The voice-mixing section of `_audio_callback` with each voice's
`process(frames)` result supplied as data: active voices whose buffer is
not identically zero are counted and summed; with at least one contributor
the sum is divided by `max(1.0, active_count)`, clipped to [-1, 1] and
scaled by the master gain, otherwise the buffer stays all-zero. -/
def mixStep (acc : List ℚ × ℕ) (p : Bool × List ℚ) : List ℚ × ℕ :=
  if p.1 then
    if isNonzeroBuf p.2 then (List.zipWith (· + ·) acc.1 p.2, acc.2 + 1) else acc
  else acc

def callbackMix (outs : List (Bool × List ℚ)) (frames : ℕ) (masterGain : ℚ) :
    List ℚ :=
  let r := outs.foldl mixStep (List.replicate frames 0, 0)
  if 0 < r.2 then
    (r.1.map (fun x => clip (x / max 1 (r.2 : ℚ)) (-1) 1)).map (· * masterGain)
  else List.replicate frames 0

/-- Modelled from the words of claim C4 (and spec section 4.6): sum
`process(N)` over all *active* voices, divide by `max(1, activeVoiceCount)`
where `activeVoiceCount` is the number of active voices, clip to [-1, 1],
and apply the master gain. -/
def specMixNormalization (outs : List (Bool × List ℚ)) (frames : ℕ)
    (masterGain : ℚ) : List ℚ :=
  let actives := outs.filter (fun p => p.1)
  let s := actives.foldl (fun acc p => List.zipWith (· + ·) acc p.2)
    (List.replicate frames 0)
  (s.map (fun x => clip (x / max 1 (actives.length : ℚ)) (-1) 1)).map (· * masterGain)

/-- Modelled from the words of claim C5: the value written to a modulation
target is `clamp(baseValue + lastLfoSample*depth*rangeScale, min, max)`. -/
def specTargetWrite (base lastLfo depth rangeScale lo hi : ℚ) : ℚ :=
  clip (base + lastLfo * depth * rangeScale) lo hi

/-! ## Concrete instances used by counterexamples and witnesses -/

/-- A concrete `Trans` instance for evaluating code paths that do not
consult the transcendental stand-ins: `sin2pi`, `gauss`, `unif`, `cosW`,
`alphaW` are constant (never consulted by the exact waveforms), `twoPow` is
the constant 1, which agrees with the source's `2**x` at the only exponent
the instantiating theorems use (`detune = 0`, hence `2**0 = 1`), and the
four wet kernels are the identity on the signal. -/
def trZero : Trans :=
  ⟨fun _ => 0, fun _ => 1, fun _ => 0, fun _ => 0, fun _ => 0, fun _ _ => 0,
   fun _ _ s => s, fun _ _ s => s, fun _ _ s => s, fun _ s => s⟩

/-- An LFO that routes the target `pan` with base value 50, saw waveform at
phase 1/2 (raw sample 0), depth 1, offset 0. -/
def lfoPan : LFO :=
  { frequency := 0, waveform := .saw, offset := 0, depth := 1, phase := 1/2,
    enabled := true, bypassed := false, targets := [("pan", 50)] }

/-- A voice sounding note 60 with its envelope holding at sustain level
0.7. -/
def vSus : Voice :=
  { Voice.init with
    active := true
    note := some 60
    adsr := { ADSR.init with state := .sustain, currentLevel := 7/10 } }

/-- A voice marked active on note 60 whose envelope is idle. -/
def vIdleActive : Voice := { Voice.init with active := true, note := some 60 }

/-! ## Claim C1 -/

/-- Claim C1 (oscillator phase continuity) fails on the code: generating a
pulse wave at 11025 Hz (detune 0, no harmonics) in two 2-sample calls gives
`[1, 1, 1, -1]`, while a single 4-sample call on a fresh oscillator gives
`[1, 1, -1, -1]`, because `generate` stores the phase of the *last emitted*
sample (`t[-1]`, an advance of `2π·f·(n-1)/44100`) instead of advancing by
`2π·f·n/44100`: after the first call the stored phase is 1/4 cycle, not the
1/2 cycle the claim requires, so the second buffer repeats the last
sample's phase. -/
theorem claim1_phase_discontinuity :
    (oscGenerate trZero Oscillator.init 11025 .pulse 2 0 0).2 ++
        (oscGenerate trZero (oscGenerate trZero Oscillator.init 11025 .pulse 2 0 0).1
          11025 .pulse 2 0 0).2 ≠
      (oscGenerate trZero Oscillator.init 11025 .pulse 4 0 0).2 ∧
    (oscGenerate trZero Oscillator.init 11025 .pulse 2 0 0).2 ++
        (oscGenerate trZero (oscGenerate trZero Oscillator.init 11025 .pulse 2 0 0).1
          11025 .pulse 2 0 0).2 = [1, 1, 1, -1] ∧
    (oscGenerate trZero Oscillator.init 11025 .pulse 4 0 0).2 = [1, 1, -1, -1] ∧
    (oscGenerate trZero Oscillator.init 11025 .pulse 2 0 0).1.phase = 1/4 ∧
    qfrac (11025 * 2 / sampleRate) = 1/2 := by decide

/-! ## Counterexample theorems for the corrected claims -/

/-- Claim C3 as stated is false at the idle state: `gate_off` on an idle
envelope does not force the state to release (the source guards the
transition with `if self.state != 'idle'`). -/
theorem claim3_counterexample :
    (gateOff ADSR.init).state ≠ ADSRState.release ∧
    (gateOff ADSR.init).state = ADSRState.idle := by decide

/-- Claim C4 as stated is false: with two active voices producing `[1]` and
`[0]`, the callback divides by `max(1, 1)` — only the voice with a nonzero
buffer is counted — and yields `[1]`, while the claimed division by the
number of active voices yields `[1/2]`. -/
theorem claim4_counterexample :
    callbackMix [(true, [1]), (true, [0])] 1 1 ≠
      specMixNormalization [(true, [1]), (true, [0])] 1 1 ∧
    callbackMix [(true, [1]), (true, [0])] 1 1 = [1] ∧
    specMixNormalization [(true, [1]), (true, [0])] 1 1 = [1/2] := by decide

/-- Claim C5 as stated is false on `LFO.generate`: with target `pan`
(range [-100, 100], so range scale 100) registered at base value 50 and a
last LFO sample of 0, the claim's formula gives `clamp(50 + 0, -100, 100)
= 50`, but `generate` writes `_scale_value(0, 'pan') = 0` — it centers on
the parameter range and ignores the stored base value. -/
theorem claim5_counterexample :
    stateGet (lfoGenerate trZero lfoPan [("pan", (0 : ℚ))] 1).2.1 "pan" = some 0 ∧
    specTargetWrite 50 0 1 100 (-100) 100 = 50 ∧
    stateGet (lfoGenerate trZero lfoPan [("pan", (0 : ℚ))] 1).2.1 "pan" ≠
      some (specTargetWrite 50 0 1 100 (-100) 100) := by decide

/-- Claim C6 as stated is false: a distortion slot with `mix = 0` does not
return the input `[2]` unchanged, because `process_effects` clips its final
result to [-1, 1] and returns `[1]` — the dry signal at `mix = 0` never
depends on the wet kernel, so this holds for the source's `tanh` wet signal
just as for the stand-in. -/
theorem claim6_counterexample :
    (processEffects trZero SynthFx.init [⟨"distortion", 1, 0, 0⟩] [2]).2 ≠ [2] ∧
    (processEffects trZero SynthFx.init [⟨"distortion", 1, 0, 0⟩] [2]).2 = [1] := by
  decide

/-- Claim C7 as stated is false: after `reset_all_voices` a voice that was
sounding (envelope in sustain) has its envelope in `release`, not `idle` —
`Voice.reset` calls `gate_off`, which starts a release instead of forcing
idle. -/
theorem claim7_counterexample :
    (resetAllVoices [vSus]).map (fun v => v.adsr.state) ≠ [ADSRState.idle] ∧
    (resetAllVoices [vSus]).map (fun v => v.adsr.state) = [ADSRState.release] := by decide

/-- Claim C9 as stated is false: `set_parameters` stores the filter type
string unvalidated, so the combination with type `"notch"` is reachable,
and `process` then faults (`b0` is never bound before `b0 /= a0`) instead
of returning a buffer. -/
theorem claim9_counterexample :
    filterProcess 0 0 (filterSetParameters Filter.init (1/2) 0 "notch" 1 0) [0] =
      none := by decide

/-- Claim C10 as stated is false at a voice whose envelope is already idle:
`note_off` finds the active voice holding note 60 but `gate_off` leaves an
idle envelope untouched, so no envelope is switched to release (the voice is
entirely unchanged). -/
theorem claim10_counterexample :
    (noteOff [vIdleActive] 60).map (fun v => v.adsr.state) ≠ [ADSRState.release] ∧
    noteOff [vIdleActive] 60 = [vIdleActive] := by decide

/-! ## Release trajectory of the envelope (claim C3) -/

/-- Closed form of the release trajectory: the k-th emitted sample after a
fresh `gate_off` is `releaseLevel * (1 - k/N)` while `k < N` and 0 from
sample `N` on, where `N = int(release * 44100)`. -/
def releaseTraj (rl : ℚ) (N : ℤ) (k : ℕ) : ℚ :=
  if (k : ℤ) < N then rl * (1 - (k : ℚ) / (N : ℚ)) else 0

/-- Invariant tying an envelope to the release trajectory: after `k` steps
of a release started by `gate_off` the envelope is in release while
`k ≤ N` (and on the very first step) and idle afterwards. -/
def releaseInv (rl r : ℚ) (N : ℤ) (k : ℕ) (a : ADSR) : Prop :=
  a.release = r ∧ a.releaseLevel = rl ∧ a.elapsedSamples = k ∧
  N = pyInt (r * sampleRate) ∧
  a.state = (if k = 0 ∨ (k : ℤ) ≤ N then ADSRState.release else ADSRState.idle)

theorem adsrStep_release {rl r : ℚ} {N : ℤ} {k : ℕ} {a : ADSR}
    (h : releaseInv rl r N k a) :
    (adsrStep a).2 = releaseTraj rl N k ∧ releaseInv rl r N (k + 1) (adsrStep a).1 := by
  obtain ⟨hr, hrl, he, hN, hs⟩ := h
  subst hr hrl he hN
  by_cases hk : a.elapsedSamples = 0 ∨ (a.elapsedSamples : ℤ) ≤ pyInt (a.release * sampleRate)
  · rw [if_pos hk] at hs
    by_cases hlt : (a.elapsedSamples : ℤ) < pyInt (a.release * sampleRate)
    · have hstep : adsrStep a =
          ({ a with
              currentLevel := a.releaseLevel *
                (1 - (a.elapsedSamples : ℚ) / ((pyInt (a.release * sampleRate) : ℤ) : ℚ))
              elapsedSamples := a.elapsedSamples + 1 },
            a.releaseLevel *
              (1 - (a.elapsedSamples : ℚ) / ((pyInt (a.release * sampleRate) : ℤ) : ℚ))) := by
        unfold adsrStep
        simp only [hs]
        rw [if_neg (by omega)]
      rw [hstep]
      refine ⟨?_, rfl, rfl, rfl, rfl, ?_⟩
      · unfold releaseTraj
        rw [if_pos hlt]
      · show a.state = _
        rw [hs, if_pos (Or.inr (by omega))]
    · have hstep : adsrStep a =
          ({ a with
              state := .idle
              currentLevel := 0
              elapsedSamples := a.elapsedSamples + 1 }, 0) := by
        unfold adsrStep
        simp only [hs]
        rw [if_pos (by omega)]
      rw [hstep]
      refine ⟨?_, rfl, rfl, rfl, rfl, ?_⟩
      · unfold releaseTraj
        rw [if_neg (by omega)]
      · show ADSRState.idle = _
        rw [if_neg (by omega)]
  · rw [if_neg hk] at hs
    have hstep : adsrStep a =
        ({ a with
            currentLevel := 0
            elapsedSamples := a.elapsedSamples + 1 }, 0) := by
      unfold adsrStep
      simp only [hs]
    rw [hstep]
    refine ⟨?_, rfl, rfl, rfl, rfl, ?_⟩
    · unfold releaseTraj
      rw [if_neg (by omega)]
    · show a.state = _
      rw [hs, if_neg (by omega)]

theorem adsrProcess_release {rl r : ℚ} {N : ℤ} :
    ∀ (n k : ℕ) (a : ADSR), releaseInv rl r N k a →
    (adsrProcess a n).2 = (List.range n).map (fun j => releaseTraj rl N (k + j)) ∧
    releaseInv rl r N (k + n) (adsrProcess a n).1
  | 0, k, a, h => by simpa [adsrProcess] using h
  | n + 1, k, a, h => by
    obtain ⟨hout, hinv⟩ := adsrStep_release h
    obtain ⟨ih1, ih2⟩ := adsrProcess_release n (k + 1) (adsrStep a).1 hinv
    constructor
    · show (adsrStep a).2 :: (adsrProcess (adsrStep a).1 n).2 = _
      rw [hout, ih1, List.range_succ_eq_map, List.map_cons, List.map_map]
      refine congrArg₂ (· :: ·) (by simp) ?_
      refine List.map_congr_left (fun j _ => ?_)
      simp only [Function.comp_apply]
      congr 1
      omega
    · show releaseInv rl r N (k + (n + 1)) (adsrProcess (adsrStep a).1 n).1
      have harith : k + (n + 1) = k + 1 + n := by omega
      rw [harith]
      exact ih2

/-- Claim C3, amended: `gate_off` from any non-idle state switches the
envelope to release, capturing the current level with a cleared sample
counter; the subsequent `process` output decays linearly from that captured
level to 0 — sample `k` equals `level*(1 - k/N)` for `k < N` and 0 from
sample `N` on, where `N = int(release*44100)` (i.e. `release` seconds) —
the state is idle once more than `N` samples have been produced, and, for a
nonnegative captured level, no release sample exceeds the captured level
(so a sustain value above it is never visited). -/
theorem claim3_release_from_anywhere (a : ADSR) (h : a.state ≠ ADSRState.idle) :
    (gateOff a).state = ADSRState.release ∧
    (gateOff a).releaseLevel = a.currentLevel ∧
    (gateOff a).elapsedSamples = 0 ∧
    ∀ n : ℕ,
      (adsrProcess (gateOff a) n).2 =
        (List.range n).map (releaseTraj a.currentLevel (pyInt (a.release * sampleRate))) ∧
      (pyInt (a.release * sampleRate) < (n : ℤ) → 0 < n →
        (adsrProcess (gateOff a) n).1.state = ADSRState.idle) ∧
      (0 ≤ a.currentLevel →
        ∀ x ∈ (adsrProcess (gateOff a) n).2, 0 ≤ x ∧ x ≤ a.currentLevel) := by
  have hg : gateOff a =
      { a with state := .release, releaseLevel := a.currentLevel, elapsedSamples := 0 } := by
    unfold gateOff
    rw [if_pos h]
  have hinv : releaseInv a.currentLevel a.release (pyInt (a.release * sampleRate)) 0 (gateOff a) := by
    rw [hg]
    exact ⟨rfl, rfl, rfl, rfl, by simp⟩
  refine ⟨by rw [hg], by rw [hg], by rw [hg], fun n => ?_⟩
  obtain ⟨h1, h2⟩ := adsrProcess_release n 0 (gateOff a) hinv
  obtain ⟨_, _, _, _, hstate⟩ := h2
  refine ⟨by simpa using h1, fun hn hn0 => ?_, fun hlvl x hx => ?_⟩
  · rw [hstate, if_neg (by omega)]
  · rw [h1] at hx
    obtain ⟨j, _, hj⟩ := List.mem_map.mp hx
    rw [← hj]
    unfold releaseTraj
    by_cases hjN : ((0 + j : ℕ) : ℤ) < pyInt (a.release * sampleRate)
    · rw [if_pos hjN]
      have hNpos : (0 : ℚ) < ((pyInt (a.release * sampleRate) : ℤ) : ℚ) := by
        exact_mod_cast lt_of_le_of_lt (by positivity) hjN
      have hfrac0 : (0 : ℚ) ≤ ((0 + j : ℕ) : ℚ) / ((pyInt (a.release * sampleRate) : ℤ) : ℚ) := by
        positivity
      have hfrac1 : ((0 + j : ℕ) : ℚ) / ((pyInt (a.release * sampleRate) : ℤ) : ℚ) < 1 := by
        rw [div_lt_one hNpos]
        exact_mod_cast hjN
      constructor
      · apply mul_nonneg hlvl
        linarith
      · nlinarith
    · rw [if_neg hjN]
      exact ⟨le_refl 0, hlvl⟩

/-- Witness for `claim3_release_from_anywhere`: an envelope caught
mid-attack at level 0.4 satisfies the hypothesis and is sent to release. -/
theorem claim3_release_witness :
    (gateOff { ADSR.init with state := ADSRState.attack, currentLevel := 2/5 }).state =
      ADSRState.release :=
  (claim3_release_from_anywhere
    { ADSR.init with state := ADSRState.attack, currentLevel := 2/5 } (by decide)).1

/-! ## Claim C10: frame property of note_off -/

/-- Claim C10, amended: if no voice is both active and holding note `n`,
`note_off(n)` changes nothing; otherwise exactly the first such voice in
pool order has `gate_off` applied to its envelope — which switches it to
release and captures the current level when the envelope was not idle, and
leaves an already-idle envelope (hence the whole voice) unchanged — while
the voice's note, velocity and active flag and every other voice are
untouched, so the voice is not deactivated until its release completes. -/
theorem claim10_note_off_frame (n : ℤ) :
    (∀ vs : List Voice,
      (∀ u ∈ vs, ¬(u.note = some n ∧ u.active = true)) → noteOff vs n = vs) ∧
    (∀ (pre post : List Voice) (v : Voice),
      (∀ u ∈ pre, ¬(u.note = some n ∧ u.active = true)) →
      v.note = some n → v.active = true →
      noteOff (pre ++ v :: post) n = pre ++ { v with adsr := gateOff v.adsr } :: post) ∧
    (∀ v : Voice,
      ({ v with adsr := gateOff v.adsr } : Voice).note = v.note ∧
      ({ v with adsr := gateOff v.adsr } : Voice).velocity = v.velocity ∧
      ({ v with adsr := gateOff v.adsr } : Voice).active = v.active) ∧
    (∀ a : ADSR, a.state ≠ ADSRState.idle →
      (gateOff a).state = ADSRState.release ∧
      (gateOff a).releaseLevel = a.currentLevel) ∧
    (∀ a : ADSR, a.state = ADSRState.idle → gateOff a = a) := by
  refine ⟨?_, ?_, ?_, ?_, ?_⟩
  · intro vs
    induction vs with
    | nil => intro _; rfl
    | cons v rest ih =>
      intro h
      unfold noteOff
      rw [if_neg (h v (List.mem_cons_self v rest))]
      rw [ih (fun u hu => h u (List.mem_cons_of_mem v hu))]
  · intro pre
    induction pre with
    | nil =>
      intro post v _ hnote hact
      simp only [List.nil_append]
      unfold noteOff
      rw [if_pos ⟨hnote, hact⟩]
    | cons u rest ih =>
      intro post v h hnote hact
      show noteOff (u :: (rest ++ v :: post)) n = _
      unfold noteOff
      rw [if_neg (h u (List.mem_cons_self u rest))]
      rw [ih post v (fun w hw => h w (List.mem_cons_of_mem u hw)) hnote hact]
      rfl
  · intro v
    exact ⟨rfl, rfl, rfl⟩
  · intro a ha
    unfold gateOff
    rw [if_pos ha]
    exact ⟨rfl, rfl⟩
  · intro a ha
    unfold gateOff
    rw [if_neg (by simp [ha])]

/-- Witness for `claim10_note_off_frame`: a single-voice pool holding note
60 in sustain is released in place. -/
theorem claim10_note_off_witness :
    noteOff ([] ++ vSus :: []) 60 = [] ++ { vSus with adsr := gateOff vSus.adsr } :: [] :=
  (claim10_note_off_frame 60).2.1 [] [] vSus (by simp) (by decide) (by decide)

/-! ## Claim C7: reset_all_voices -/

/-- Claim C7, amended: `reset_all_voices` resets every voice in the pool:
each voice ends inactive with no note and velocity 0; its envelope is
*switched to release* capturing the current level (an already-idle envelope
stays idle) rather than being forced to idle; and — the note having been
cleared — its next `process()` call under MIDI input returns an all-zero
buffer, so the voice is silent immediately even though the envelope object
only reaches idle after its release time. -/
theorem claim7_reset_all (vs : List Voice) :
    resetAllVoices vs = vs.map voiceReset ∧
    ∀ v : Voice,
      (voiceReset v).active = false ∧
      (voiceReset v).note = none ∧
      (voiceReset v).velocity = 0 ∧
      (voiceReset v).adsr.state =
        (if v.adsr.state = ADSRState.idle then ADSRState.idle else ADSRState.release) ∧
      (v.adsr.state ≠ ADSRState.idle →
        (voiceReset v).adsr.releaseLevel = v.adsr.currentLevel) ∧
      ∀ (tr : Trans) (st : SynthState) (frames : ℕ),
        st.inputSource = InputSource.midi →
        (voiceProcess tr st (voiceReset v) frames).map (fun r => r.2.2) =
          some (List.replicate frames 0) := by
  refine ⟨rfl, fun v => ⟨rfl, rfl, rfl, ?_, ?_, ?_⟩⟩
  · show (gateOff v.adsr).state = _
    unfold gateOff
    by_cases h : v.adsr.state = ADSRState.idle
    · rw [if_neg (by simp [h]), if_pos h]
      exact h
    · rw [if_pos h, if_neg h]
  · intro h
    show (gateOff v.adsr).releaseLevel = _
    unfold gateOff
    rw [if_pos h]
  · intro tr st frames hmidi
    unfold voiceProcess
    by_cases h : v.adsr.state = ADSRState.idle
    · have hidle : (voiceReset v).adsr.state = ADSRState.idle := by
        show (gateOff v.adsr).state = _
        unfold gateOff
        rw [if_neg (by simp [h])]
        exact h
      rw [if_pos ⟨rfl, hidle⟩]
      rfl
    · have hrel : (voiceReset v).adsr.state = ADSRState.release := by
        show (gateOff v.adsr).state = _
        unfold gateOff
        rw [if_pos h]
      rw [if_neg (by simp [hrel])]
      have hseq : ∀ (st1 : SynthState) (v1 : Voice), st1.inputSource = InputSource.midi →
          seqStep st1 v1 frames = some v1 := by
        intro st1 v1 h1
        unfold seqStep
        rw [if_neg (by simp [h1])]
      simp only [hseq, hmidi]
      rfl

/-- Witness for `claim7_reset_all`: the sustained voice `vSus` is reset and
its next `process` call under the default MIDI configuration yields four
zero samples. -/
theorem claim7_reset_witness :
    (voiceProcess trZero stDefault (voiceReset vSus) 4).map (fun r => r.2.2) =
      some (List.replicate 4 0) :=
  ((claim7_reset_all [vSus]).2 vSus).2.2.2.2.2 trZero stDefault 4 (by decide)

/-! ## Claim C2: voice allocation -/

/-- Characterization of Python's `min` iteration: either nothing beats the
current best (`bi`, `bk`) and the best index is returned with `bk` minimal,
or the first strictly-better minimum of the remaining keys is selected. -/
theorem pyArgminAux_spec :
    ∀ (ks : List (WithTop ℤ)) (i bi : ℕ) (bk : WithTop ℤ),
      (pyArgminAux ks i bi bk = bi ∧ ∀ (j : ℕ) (hj : j < ks.length), bk ≤ ks.get ⟨j, hj⟩) ∨
      (∃ (j : ℕ) (hj : j < ks.length),
        pyArgminAux ks i bi bk = i + j ∧
        ks.get ⟨j, hj⟩ < bk ∧
        (∀ (l : ℕ) (hl : l < ks.length), ks.get ⟨j, hj⟩ ≤ ks.get ⟨l, hl⟩) ∧
        (∀ (l : ℕ) (hl : l < j), ks.get ⟨j, hj⟩ < ks.get ⟨l, lt_trans hl hj⟩))
  | [], i, bi, bk => Or.inl ⟨rfl, fun j hj => absurd hj (by simp)⟩
  | k :: rest, i, bi, bk => by
    by_cases hk : k < bk
    · have h := pyArgminAux_spec rest (i + 1) i k
      unfold pyArgminAux
      rw [if_pos hk]
      right
      rcases h with ⟨h1, h2⟩ | ⟨j, hj, h1, h2, h3, h4⟩
      · refine ⟨0, by simp, by rw [h1]; omega, by simpa using hk, ?_, ?_⟩
        · intro l hl
          cases l with
          | zero => simp
          | succ m => simpa using h2 m (by simpa using hl)
        · intro l hl
          exact absurd hl (Nat.not_lt_zero l)
      · refine ⟨j + 1, by simpa using hj, by rw [h1]; omega, ?_, ?_, ?_⟩
        · simpa using lt_trans h2 hk
        · intro l hl
          cases l with
          | zero => simpa using le_of_lt h2
          | succ m => simpa using h3 m (by simpa using hl)
        · intro l hl
          cases l with
          | zero => simpa using h2
          | succ m => simpa using h4 m (by omega)
    · have h := pyArgminAux_spec rest (i + 1) bi bk
      unfold pyArgminAux
      rw [if_neg hk]
      push_neg at hk
      rcases h with ⟨h1, h2⟩ | ⟨j, hj, h1, h2, h3, h4⟩
      · left
        refine ⟨h1, fun l hl => ?_⟩
        cases l with
        | zero => simpa using hk
        | succ m => simpa using h2 m (by simpa using hl)
      · right
        refine ⟨j + 1, by simpa using hj, by rw [h1]; omega, by simpa using h2, ?_, ?_⟩
        · intro l hl
          cases l with
          | zero => simpa using le_trans (le_of_lt h2) hk
          | succ m => simpa using h3 m (by simpa using hl)
        · intro l hl
          cases l with
          | zero => simpa using lt_of_lt_of_le h2 hk
          | succ m => simpa using h4 m (by omega)

/-- `findIdx?` returns the first index satisfying the predicate. -/
theorem findIdxP_first {p : Voice → Bool} :
    ∀ (vs : List Voice) (i : ℕ) (hi : i < vs.length),
      (∀ (j : ℕ) (hj : j < i), p (vs.get ⟨j, lt_trans hj hi⟩) = false) →
      p (vs.get ⟨i, hi⟩) = true →
      vs.findIdx? p = some i
  | [], i, hi, _, _ => absurd hi (by simp)
  | v :: rest, 0, hi, _, hp => by
    rw [List.findIdx?_cons]
    simpa using hp
  | v :: rest, i + 1, hi, hbefore, hp => by
    rw [List.findIdx?_cons]
    have h0 : p v = false := by simpa using hbefore 0 (Nat.succ_pos i)
    rw [h0]
    simp only [Bool.false_eq_true, if_false]
    rw [List.findIdx?_succ]
    rw [findIdxP_first rest i (by simpa using hi)
      (fun j hj => by simpa using hbefore (j + 1) (by omega))
      (by simpa using hp)]
    rfl

/-- No index satisfies the predicate when it is false everywhere. -/
theorem findIdxP_none {p : Voice → Bool} :
    ∀ vs : List Voice, (∀ u ∈ vs, p u = false) → vs.findIdx? p = none
  | [], _ => rfl
  | v :: rest, h => by
    rw [List.findIdx?_cons, h v (List.mem_cons_self v rest)]
    simp only [Bool.false_eq_true, if_false]
    rw [List.findIdx?_succ]
    rw [findIdxP_none rest (fun u hu => h u (List.mem_cons_of_mem v hu))]
    rfl

/-- Claim C2 (voice stealing determinism), confirmed: `note_on` never fails
on a nonempty pool; when some voice is inactive the first inactive voice in
pool order is chosen; when every voice is active (steal), the chosen voice
holds the numerically lowest active note, with ties broken by pool order
(Python `min` keeps the first minimum); and `note_on` assigns note,
scaled velocity, the active flag and `gate_on` exactly to the chosen
voice.  The steal case assumes every active voice holds a note, which
`note_on` itself guarantees (the source would raise comparing `None`). -/
theorem claim2_voice_allocation (vs : List Voice) (note velocity : ℤ) :
    (vs ≠ [] → (findFreeVoiceIdx vs).isSome) ∧
    (∀ (i : ℕ) (hi : i < vs.length),
      (∀ (j : ℕ) (hj : j < i), (vs.get ⟨j, lt_trans hj hi⟩).active = true) →
      (vs.get ⟨i, hi⟩).active = false →
      findFreeVoiceIdx vs = some i) ∧
    ((∀ u ∈ vs, u.active = true) → (∀ u ∈ vs, u.note.isSome) →
      ∀ (i : ℕ) (hi : i < vs.length) (nv : ℤ),
      (vs.get ⟨i, hi⟩).note = some nv →
      (∀ u ∈ vs, ∀ mu : ℤ, u.note = some mu → nv ≤ mu) →
      (∀ (j : ℕ) (hj : j < i), ∀ mj : ℤ,
        (vs.get ⟨j, lt_trans hj hi⟩).note = some mj → nv < mj) →
      findFreeVoiceIdx vs = some i) ∧
    (∀ i : ℕ, findFreeVoiceIdx vs = some i →
      noteOn vs note velocity = listModify vs i (assignVoice note velocity)) := by
  refine ⟨?_, ?_, ?_, ?_⟩
  · intro hne
    unfold findFreeVoiceIdx
    cases h : vs.findIdx? (fun v => !v.active) with
    | some i => simp
    | none =>
      cases vs with
      | nil => exact absurd rfl hne
      | cons v rest => simp
  · intro i hi hbef hin
    unfold findFreeVoiceIdx
    rw [findIdxP_first vs i hi (fun j hj => by simp only [hbef j hj, Bool.not_true])
      (by simp only [hin, Bool.not_false])]
  · intro hall hsome i hi nv hnote hmin hfirst
    have hkeymem : ∀ u ∈ vs, ∃ m : ℤ, u.note = some m ∧ stealKey u = (m : WithTop ℤ) := by
      intro u hu
      obtain ⟨m, hm⟩ := Option.isSome_iff_exists.mp (hsome _ hu)
      exact ⟨m, hm, by simp [stealKey, hall _ hu, hm]⟩
    have hnone : vs.findIdx? (fun v => !v.active) = none :=
      findIdxP_none vs (fun u hu => by simp [hall u hu])
    cases vs with
    | nil => exact absurd hi (by simp)
    | cons v rest =>
      simp only [List.length_cons] at hi
      simp only [List.get_eq_getElem] at hnote hfirst
      unfold findFreeVoiceIdx
      rw [hnone]
      show some (pyArgminAux (rest.map stealKey) 1 0 (stealKey v)) = some i
      refine congrArg some ?_
      obtain ⟨m0, hm01, hm02⟩ := hkeymem v (List.mem_cons_self v rest)
      have hkeyr : ∀ (j : ℕ) (hj : j < rest.length),
          ∃ m : ℤ, rest[j].note = some m ∧ stealKey rest[j] = (m : WithTop ℤ) := by
        intro j hj
        exact hkeymem rest[j] (List.mem_cons_of_mem v (List.getElem_mem hj))
      rcases pyArgminAux_spec (rest.map stealKey) 1 0 (stealKey v) with
        ⟨h1, h2⟩ | ⟨j, hj, h1, h2, h3, h4⟩
      · simp only [List.get_eq_getElem, List.getElem_map, List.length_map] at h2
        rw [h1]
        by_contra hne0
        obtain ⟨ii, rfl⟩ : ∃ ii, i = ii + 1 := ⟨i - 1, by omega⟩
        have hii : ii < rest.length := by omega
        obtain ⟨mi, hmi1, hmi2⟩ := hkeyr ii hii
        have hvi : rest[ii].note = some nv := by
          simpa [List.getElem_cons_succ] using hnote
        have hminv : mi = nv := by
          rw [hvi] at hmi1
          exact (Option.some_inj.mp hmi1).symm
        have hlt0 : nv < m0 := hfirst 0 (by omega) m0 (by simpa using hm01)
        have hle := h2 ii hii
        rw [hmi2, hm02, hminv, WithTop.coe_le_coe] at hle
        omega
      · simp only [List.get_eq_getElem, List.getElem_map, List.length_map] at h2 h3 h4 hj
        rw [h1]
        obtain ⟨mj, hmj1, hmj2⟩ := hkeyr j hj
        have hjmem : rest[j] ∈ v :: rest :=
          List.mem_cons_of_mem v (List.getElem_mem hj)
        have hnvmj : nv ≤ mj := hmin _ hjmem mj hmj1
        rcases Nat.eq_zero_or_pos i with hi0 | hipos
        · exfalso
          subst hi0
          have hv0 : v.note = some nv := by simpa using hnote
          have hm0nv : m0 = nv := by
            rw [hv0] at hm01
            exact (Option.some_inj.mp hm01).symm
          rw [hmj2, hm02, hm0nv, WithTop.coe_lt_coe] at h2
          omega
        · obtain ⟨ii, rfl⟩ : ∃ ii, i = ii + 1 := ⟨i - 1, by omega⟩
          have hii : ii < rest.length := by omega
          obtain ⟨mi, hmi1, hmi2⟩ := hkeyr ii hii
          have hvi : rest[ii].note = some nv := by
            simpa [List.getElem_cons_succ] using hnote
          have hminv : mi = nv := by
            rw [hvi] at hmi1
            exact (Option.some_inj.mp hmi1).symm
          rcases lt_trichotomy ii j with hlt | heq | hgt
          · exfalso
            have h4x := h4 ii hlt
            rw [hmj2, hmi2, hminv, WithTop.coe_lt_coe] at h4x
            omega
          · omega
          · exfalso
            have hstrict : nv < mj :=
              hfirst (j + 1) (by omega) mj (by simpa using hmj1)
            have h3x := h3 ii hii
            rw [hmj2, hmi2, hminv, WithTop.coe_le_coe] at h3x
            omega
  · intro i h
    unfold noteOn
    rw [h]

/-- Witness for `claim2_voice_allocation`: in a full pool holding notes
[64, 60, 67], the voice with the lowest note (index 1) is stolen. -/
theorem claim2_allocation_witness :
    findFreeVoiceIdx
      [{ vSus with note := some 64 }, { vSus with note := some 60 },
        { vSus with note := some 67 }] = some 1 :=
  (claim2_voice_allocation
      [{ vSus with note := some 64 }, { vSus with note := some 60 },
        { vSus with note := some 67 }] 72 100).2.2.1
    (by decide) (by decide) 1 (by decide) 60 (by decide) (by decide)
    (fun j hj mj hm => by
      have hj0 : j = 0 := Nat.lt_one_iff.mp hj
      subst hj0
      simp only [List.get_eq_getElem, List.getElem_cons_zero] at hm
      simp only [Option.some.injEq] at hm
      omega)

/-! ## Claim C4: mixing normalization -/

theorem zipWith_add_replicate (n : ℕ) (a c : ℚ) :
    List.zipWith (· + ·) (List.replicate n a) (List.replicate n c) =
      List.replicate n (a + c) := by
  induction n with
  | zero => rfl
  | succ n ih => simp [List.replicate_succ, ih]

theorem filter_replicate {α : Type} (p : α → Bool) (k : ℕ) (a : α) :
    (List.replicate k a).filter p = if p a then List.replicate k a else [] := by
  induction k with
  | zero => simp
  | succ k ih =>
    by_cases h : p a <;> simp [List.replicate_succ, List.filter_cons, h, ih]

theorem foldl_zipWith_replicate (n : ℕ) (c : ℚ) :
    ∀ (k : ℕ) (a : ℚ),
      (List.replicate k (List.replicate n c)).foldl
        (fun x y => List.zipWith (· + ·) x y) (List.replicate n a) =
        List.replicate n (a + k * c)
  | 0, a => by simp
  | k + 1, a => by
    rw [List.replicate_succ, List.foldl_cons, zipWith_add_replicate,
      foldl_zipWith_replicate n c k (a + c)]
    refine congrArg (List.replicate n ·) ?_
    push_cast
    ring

theorem mixStep_foldl (outs : List (Bool × List ℚ)) :
    ∀ acc : List ℚ × ℕ,
      outs.foldl mixStep acc =
        (((outs.filter (fun p => p.1 && isNonzeroBuf p.2)).map Prod.snd).foldl
           (fun x y => List.zipWith (· + ·) x y) acc.1,
         acc.2 + ((outs.filter (fun p => p.1 && isNonzeroBuf p.2)).map Prod.snd).length) := by
  induction outs with
  | nil => intro acc; simp
  | cons p rest ih =>
    intro acc
    rw [List.foldl_cons]
    by_cases h1 : p.1 = true
    · by_cases h2 : isNonzeroBuf p.2 = true
      · rw [show mixStep acc p = (List.zipWith (· + ·) acc.1 p.2, acc.2 + 1) from by
          simp [mixStep, h1, h2]]
        rw [ih]
        rw [List.filter_cons, if_pos (by simp [h1, h2])]
        simp only [List.map_cons, List.foldl_cons, List.length_cons]
        exact Prod.ext rfl (by omega)
      · rw [show mixStep acc p = acc from by simp [mixStep, h1, h2]]
        rw [ih, List.filter_cons, if_neg (by simp [h1, h2])]
    · rw [show mixStep acc p = acc from by simp [mixStep, h1]]
      rw [ih, List.filter_cons, if_neg (by simp [h1])]

/-- Claim C4, amended: the pre-effects master output of the callback is the
sum of `process(N)` over the *contributing* voices — the active voices whose
buffer is not identically zero — divided by `max(1, contributingCount)`,
clipped to [-1, 1] and scaled by the master gain; with no contributing
voice the buffer stays all-zero (gain is not applied).  Active voices whose
buffer is identically zero are excluded from the divisor (that is the only
difference from the claim as stated).  In particular, with `k ≥ 1` active
voices each producing a constant 1.0 buffer the normalized pre-clip signal
is 1.0, not `k`, and the output is the gain itself on every sample. -/
theorem claim4_mixing_normalization (outs : List (Bool × List ℚ)) (frames : ℕ)
    (gain : ℚ) :
    (callbackMix outs frames gain =
      (if ((outs.filter (fun p => p.1 && isNonzeroBuf p.2)).map Prod.snd).length = 0 then
        List.replicate frames 0
      else
        (((outs.filter (fun p => p.1 && isNonzeroBuf p.2)).map Prod.snd).foldl
            (fun x y => List.zipWith (· + ·) x y) (List.replicate frames 0)).map
          (fun x =>
            clip (x / max 1
              ((((outs.filter (fun p => p.1 && isNonzeroBuf p.2)).map Prod.snd).length : ℚ)))
              (-1) 1 * gain))) ∧
    (∀ (k n : ℕ) (g : ℚ), 0 < k →
      callbackMix (List.replicate k (true, List.replicate n (1 : ℚ))) n g =
        List.replicate n g) := by
  constructor
  · unfold callbackMix
    rw [mixStep_foldl]
    by_cases h : ((outs.filter (fun p => p.1 && isNonzeroBuf p.2)).map Prod.snd).length = 0
    · rw [if_pos h]
      simp [h]
    · rw [if_neg h]
      rw [if_pos (by omega)]
      simp [List.map_map, Function.comp]
  · intro k n g hk
    unfold callbackMix
    by_cases hn : n = 0
    · subst hn
      simp [mixStep_foldl, filter_replicate, isNonzeroBuf]
    · have hz : isNonzeroBuf (List.replicate n (1 : ℚ)) = true := by
        obtain ⟨m, rfl⟩ : ∃ m, n = m + 1 := ⟨n - 1, by omega⟩
        simp [isNonzeroBuf, List.replicate_succ]
      have hfilt : (List.replicate k (true, List.replicate n (1 : ℚ))).filter
          (fun p => p.1 && isNonzeroBuf p.2) =
          List.replicate k (true, List.replicate n (1 : ℚ)) := by
        rw [filter_replicate, if_pos (by simp [hz])]
      simp only [mixStep_foldl, hfilt, List.map_replicate, List.length_replicate,
        foldl_zipWith_replicate, Nat.zero_add, zero_add, mul_one]
      rw [if_pos hk]
      refine congrArg (List.replicate n ·) ?_
      have hmax : max 1 ((k : ℚ)) = (k : ℚ) := by
        refine max_eq_right ?_
        exact_mod_cast hk
      rw [hmax]
      rw [div_self (by exact_mod_cast Nat.pos_iff_ne_zero.mp hk)]
      show min (max 1 (-1)) 1 * g = g
      norm_num

/-- Witness for `claim4_mixing_normalization`: three active voices each
producing a constant 1.0 two-sample buffer mix to the master gain on every
sample. -/
theorem claim4_mixing_witness :
    callbackMix (List.replicate 3 (true, List.replicate 2 (1 : ℚ))) 2 (1/2) =
      List.replicate 2 (1/2) :=
  (claim4_mixing_normalization [] 0 0).2 3 2 (1/2) (by omega)

/-! ## Claim C5: modulation router target writes -/

theorem stateGet_stateSet_self :
    ∀ (st : List (String × ℚ)) (name : String) (v : ℚ),
      (stateGet st name).isSome → stateGet (stateSet st name v) name = some v
  | [], name, v, h => by simp [stateGet] at h
  | p :: rest, name, v, h => by
    by_cases hp : p.1 == name
    · unfold stateSet
      rw [if_pos hp]
      unfold stateGet
      rw [List.find?_cons_of_pos _ (by simpa using hp)]
      rfl
    · unfold stateSet
      rw [if_neg hp]
      unfold stateGet
      rw [List.find?_cons_of_neg _ (by simpa using hp)]
      refine stateGet_stateSet_self rest name v ?_
      unfold stateGet at h
      rw [List.find?_cons_of_neg _ (by simpa using hp)] at h
      exact h

theorem stateGet_stateSet_other :
    ∀ (st : List (String × ℚ)) (name other : String) (v : ℚ),
      name ≠ other → stateGet (stateSet st name v) other = stateGet st other
  | [], _, _, _, _ => rfl
  | p :: rest, name, other, v, hne => by
    by_cases hp : p.1 == name
    · unfold stateSet
      rw [if_pos hp]
      unfold stateGet
      by_cases ho : p.1 == other
      · exact absurd (by
          have h1 : p.1 = name := by simpa using hp
          have h2 : p.1 = other := by simpa using ho
          rw [← h1, h2]) hne
      · rw [List.find?_cons_of_neg _ (by simpa using ho),
          List.find?_cons_of_neg _ (by simpa using ho)]
    · unfold stateSet
      rw [if_neg hp]
      unfold stateGet
      by_cases ho : p.1 == other
      · rw [List.find?_cons_of_pos _ (by simpa using ho),
          List.find?_cons_of_pos _ (by simpa using ho)]
      · rw [List.find?_cons_of_neg _ (by simpa using ho),
          List.find?_cons_of_neg _ (by simpa using ho)]
        exact stateGet_stateSet_other rest name other v hne

theorem writeStep_get_other (vf : String → ℚ → Option ℚ)
    (s : List (String × ℚ)) (t : String × ℚ) (name : String) (h : t.1 ≠ name) :
    stateGet (writeStep vf s t) name = stateGet s name := by
  unfold writeStep
  by_cases hs : (stateGet s t.1).isSome
  · rw [if_pos hs]
    cases vf t.1 t.2 with
    | none => rfl
    | some v => exact stateGet_stateSet_other s t.1 name v h
  · rw [if_neg hs]

theorem writeTargets_get_not_mem (vf : String → ℚ → Option ℚ) :
    ∀ (targets : List (String × ℚ)) (st : List (String × ℚ)) (name : String),
      name ∉ targets.map Prod.fst →
      stateGet (writeTargets vf targets st) name = stateGet st name
  | [], _, _, _ => rfl
  | t :: rest, st, name, h => by
    have hne : t.1 ≠ name := by
      intro hc
      exact h (by simp [← hc])
    show stateGet (writeTargets vf rest (writeStep vf st t)) name = _
    rw [writeTargets_get_not_mem vf rest (writeStep vf st t) name (by
      intro hc
      exact h (by simp [hc]))]
    exact writeStep_get_other vf st t name hne

theorem writeTargets_lookup (vf : String → ℚ → Option ℚ) :
    ∀ (targets : List (String × ℚ)) (st : List (String × ℚ)) (name : String)
      (base w : ℚ),
      (name, base) ∈ targets →
      (targets.map Prod.fst).Nodup →
      (stateGet st name).isSome →
      vf name base = some w →
      stateGet (writeTargets vf targets st) name = some w
  | [], _, _, _, _, hmem, _, _, _ => absurd hmem (by simp)
  | t :: rest, st, name, base, w, hmem, hnodup, hst, hvf => by
    have hn := hnodup
    rw [List.map_cons, List.nodup_cons] at hn
    rcases List.mem_cons.mp hmem with heq | hmem2
    · subst heq
      show stateGet (writeTargets vf rest (writeStep vf st (name, base))) name = some w
      rw [writeTargets_get_not_mem vf rest _ name hn.1]
      unfold writeStep
      rw [if_pos hst]
      simp only
      rw [hvf]
      exact stateGet_stateSet_self st name w hst
    · have hne : t.1 ≠ name := by
        intro hc
        refine hn.1 ?_
        rw [hc]
        exact List.mem_map_of_mem Prod.fst hmem2
      show stateGet (writeTargets vf rest (writeStep vf st t)) name = some w
      refine writeTargets_lookup vf rest _ name base w hmem2 hn.2 ?_ hvf
      rw [writeStep_get_other vf st t name hne]
      exact hst

/-- Claim C5, amended: for a registered target whose name exists in the
shared configuration and has a known parameter range [lo, hi] (target names
unique, as Python dictionary keys are): the explicit `process()` step
writes `clamp(base + value*(hi-lo)*depth/2, lo, hi)` where `value` is the
current depth-and-offset-scaled LFO sample — i.e. the claim's formula with
range scale `(hi-lo)/2` — but `generate()` instead writes
`_scale_value(lastSample, name)`, which centers the modulation on the
middle of the parameter range, `clamp((hi+lo)/2 + lastSample*(hi-lo)/2*depth,
lo, hi)`, ignoring the stored base value entirely. -/
theorem claim5_lfo_target_writes (tr : Trans) (l : LFO) (st : List (String × ℚ))
    (name : String) (base lo hi : ℚ)
    (hmem : (name, base) ∈ l.targets)
    (hnodup : (l.targets.map Prod.fst).Nodup)
    (hst : (stateGet st name).isSome)
    (hrange : parameterRanges name = some (lo, hi)) :
    (l.enabled = true → l.bypassed = false →
      stateGet (lfoProcess tr l st).2 name =
        some (clip (base + (lfoRaw tr l.waveform l.phase * l.depth + l.offset) *
          (hi - lo) * l.depth / 2) lo hi)) ∧
    (∀ n : ℕ, l.bypassed = false →
      stateGet (lfoGenerate tr l st n).2.1 name =
        some (scaleValue l.depth ((lfoGenerate tr l st n).2.2.getLastD 0) name)) ∧
    (∀ raw : ℚ,
      scaleValue l.depth raw name =
        clip ((hi + lo) / 2 + raw * ((hi - lo) / 2) * l.depth) lo hi) := by
  refine ⟨?_, ?_, ?_⟩
  · intro he hb
    unfold lfoProcess
    rw [if_neg (by simp [he, hb])]
    exact writeTargets_lookup _ l.targets st name base _ hmem hnodup hst
      (by rw [hrange]; rfl)
  · intro n hb
    unfold lfoGenerate
    rw [if_neg (by simp [hb])]
    exact writeTargets_lookup _ l.targets st name base _ hmem hnodup hst rfl
  · intro raw
    unfold scaleValue
    rw [hrange]

/-- Witness for `claim5_lfo_target_writes`: the `pan` target of `lfoPan`
(base 50) present in a one-entry configuration. -/
theorem claim5_lfo_witness :
    stateGet (lfoProcess trZero lfoPan [("pan", (0 : ℚ))]).2 "pan" =
      some (clip (50 + (lfoRaw trZero lfoPan.waveform lfoPan.phase * lfoPan.depth +
        lfoPan.offset) * (100 - -100) * lfoPan.depth / 2) (-100) 100) :=
  (claim5_lfo_target_writes trZero lfoPan [("pan", (0 : ℚ))] "pan" 50 (-100) 100
    (by decide) (by decide) (by decide) (by decide)).1 rfl rfl

/-! ## Claim C6: effects dry/wet law -/

theorem zipWith_drywet_zero :
    ∀ (xs ys : List ℚ), ys.length = xs.length →
      List.zipWith (fun d e => d * (1 - (0 : ℚ)) + e * 0) xs ys = xs
  | [], [], _ => rfl
  | x :: xs, y :: ys, h => by
    rw [List.zipWith_cons_cons, zipWith_drywet_zero xs ys (by simpa using h)]
    norm_num
  | [], y :: ys, h => by simp at h
  | x :: xs, [], h => by simp at h

theorem zipWith_drywet_one :
    ∀ (xs ys : List ℚ), ys.length = xs.length →
      List.zipWith (fun d e => d * (1 - (1 : ℚ)) + e * 1) xs ys = ys
  | [], [], _ => rfl
  | x :: xs, y :: ys, h => by
    rw [List.zipWith_cons_cons, zipWith_drywet_one xs ys (by simpa using h)]
    norm_num
  | [], y :: ys, h => by simp at h
  | x :: xs, [], h => by simp at h

/-- Claim C6, amended: for a single effect slot (of any type) and any input
signal whose wet signal has the input's length, `mix = 0` makes the chain
return the input *clipped elementwise to [-1, 1]* — identical to the input
whenever the input already lies in [-1, 1] — and `mix = 1` returns the
effect's wet signal, also clipped to [-1, 1]; the final
`np.clip(output, -1, 1)` of `process_effects` is the only deviation from
the claim as stated. -/
theorem claim6_effects_dry_wet (tr : Trans) (fx : SynthFx) (slot : FxSlot)
    (signal : List ℚ)
    (hw : (effectWet tr fx slot signal).2.length = signal.length) :
    (slot.mix = 0 →
      (processEffects tr fx [slot] signal).2 = signal.map (fun x => clip x (-1) 1)) ∧
    (slot.mix = 1 → slot.ftype ≠ "none" →
      (processEffects tr fx [slot] signal).2 =
        (effectWet tr fx slot signal).2.map (fun x => clip x (-1) 1)) := by
  constructor
  · intro hm
    unfold processEffects
    simp only [List.foldl_cons, List.foldl_nil]
    by_cases hn : slot.ftype = "none"
    · rw [if_pos hn]
    · rw [if_neg hn]
      simp only
      rw [hm, zipWith_drywet_zero signal (effectWet tr fx slot signal).2 hw]
  · intro hm hn
    unfold processEffects
    simp only [List.foldl_cons, List.foldl_nil]
    rw [if_neg hn]
    simp only
    rw [hm, zipWith_drywet_one signal (effectWet tr fx slot signal).2 hw]

/-- Witness for `claim6_effects_dry_wet`: a distortion slot at `mix = 0`
reproduces the (clipped) input. -/
theorem claim6_drywet_witness :
    (processEffects trZero SynthFx.init [⟨"distortion", 1/2, 0, 0⟩] [2]).2 =
      [2].map (fun x => clip x (-1) 1) :=
  (claim6_effects_dry_wet trZero SynthFx.init ⟨"distortion", 1/2, 0, 0⟩ [2]
    (by decide)).1 rfl

/-! ## Claim C9: filter parameter clamping and totality -/

theorem clip_le_hi (x lo hi : ℚ) : clip x lo hi ≤ hi := min_le_right _ _

theorem lo_le_clip (x lo hi : ℚ) (h : lo ≤ hi) : lo ≤ clip x lo hi :=
  le_min (le_max_right x lo) h

theorem filterStage_length (b0 b1 b2 a1 a2 : ℚ) :
    ∀ (sig : List ℚ) (z1 z2 : ℚ),
      (filterStage b0 b1 b2 a1 a2 sig z1 z2).1.length = sig.length
  | [], _, _ => rfl
  | x :: rest, z1, z2 => by
    show (_ :: (filterStage b0 b1 b2 a1 a2 rest x z1).1).length = _
    rw [List.length_cons, filterStage_length b0 b1 b2 a1 a2 rest x z1]
    rfl

theorem filterRunStages_length (b0 b1 b2 a1 a2 : ℚ) (stages : ℕ)
    (signal z1 z2 : List ℚ) :
    (filterRunStages b0 b1 b2 a1 a2 stages signal z1 z2).1.length = signal.length := by
  unfold filterRunStages
  generalize List.range stages = l
  induction l generalizing signal z1 z2 with
  | nil => rfl
  | cons s rest ih =>
    rw [List.foldl_cons]
    rw [ih]
    exact filterStage_length b0 b1 b2 a1 a2 signal _ _

/-- Claim C9, amended: `set_parameters` clamps every numeric parameter into
its range (cutoff into [0.01, 0.99], resonance into [0, 0.99], steepness
into [1, 4], harmonics into [0, 1]) rather than rejecting it, and for the
three recognized filter types (`lowpass`, `highpass`, `bandpass`) `process`
returns a buffer of the input's length for every parameter combination and
input, performing no clamping of its own; the type string, however, is
stored unvalidated, and `process` on any other type string raises
(`b0` is used before assignment) instead of returning a buffer. -/
theorem claim9_filter_clamping (f : Filter) (cutoff resonance : ℚ) (ftype : String)
    (steepness harmonics : ℚ) :
    (1/100 ≤ (filterSetParameters f cutoff resonance ftype steepness harmonics).cutoff ∧
     (filterSetParameters f cutoff resonance ftype steepness harmonics).cutoff ≤ 99/100 ∧
     0 ≤ (filterSetParameters f cutoff resonance ftype steepness harmonics).resonance ∧
     (filterSetParameters f cutoff resonance ftype steepness harmonics).resonance ≤ 99/100 ∧
     1 ≤ (filterSetParameters f cutoff resonance ftype steepness harmonics).steepness ∧
     (filterSetParameters f cutoff resonance ftype steepness harmonics).steepness ≤ 4 ∧
     0 ≤ (filterSetParameters f cutoff resonance ftype steepness harmonics).harmonics ∧
     (filterSetParameters f cutoff resonance ftype steepness harmonics).harmonics ≤ 1) ∧
    (∀ (cosw0 alpha : ℚ) (signal : List ℚ),
      (ftype = "lowpass" ∨ ftype = "highpass" ∨ ftype = "bandpass") →
      ∃ f2 out,
        filterProcess cosw0 alpha
          (filterSetParameters f cutoff resonance ftype steepness harmonics) signal =
          some (f2, out) ∧
        out.length = signal.length) := by
  constructor
  · refine ⟨lo_le_clip _ _ _ (by norm_num), clip_le_hi _ _ _,
      lo_le_clip _ _ _ (by norm_num), clip_le_hi _ _ _,
      lo_le_clip _ _ _ (by norm_num), clip_le_hi _ _ _,
      lo_le_clip _ _ _ (by norm_num), clip_le_hi _ _ _⟩
  · intro cosw0 alpha signal ht
    rcases ht with h | h | h <;> subst h <;>
      exact ⟨_, _, rfl, by rw [List.length_map, filterRunStages_length]⟩

/-- Witness for `claim9_filter_clamping`: the lowpass type yields a
2-sample output for a 2-sample input. -/
theorem claim9_filter_witness :
    ∃ f2 out,
      filterProcess 0 0 (filterSetParameters Filter.init (1/2) 0 "lowpass" 1 0) [0, 1] =
        some (f2, out) ∧
      out.length = [(0 : ℚ), 1].length :=
  (claim9_filter_clamping Filter.init (1/2) 0 "lowpass" 1 0).2 0 0 [0, 1] (Or.inl rfl)

/-! ## Claim C8: render-fault containment (buffer length lemmas) -/

theorem linspaceCycles_length (s f : ℚ) (n : ℕ) : (linspaceCycles s f n).length = n := by
  unfold linspaceCycles
  rw [List.length_map, List.length_range]

theorem lfoGenerate_length (tr : Trans) (l : LFO) (st : List (String × ℚ)) (n : ℕ) :
    (lfoGenerate tr l st n).2.2.length = n := by
  unfold lfoGenerate
  split <;>
    simp only [List.length_replicate, List.length_map, List.length_range]

theorem oscHarmFold_length (tr : Trans) (w : Waveform) (fDet : ℚ) (samples : ℕ)
    (harmonics : ℚ) :
    ∀ (is : List ℕ) (acc : List ℚ × List ℚ), acc.1.length = samples →
      ((is.foldl (oscHarmonicStep tr w fDet samples harmonics) acc).1.length = samples)
  | [], _, h => h
  | i :: rest, acc, h => by
    rw [List.foldl_cons]
    refine oscHarmFold_length tr w fDet samples harmonics rest _ ?_
    show (List.zipWith _ acc.1 _).length = samples
    rw [List.length_zipWith, h, List.length_map, List.enum_length, linspaceCycles_length]
    exact min_self samples

theorem oscGenerate_length (tr : Trans) (osc : Oscillator) (f : ℚ) (w : Waveform)
    (n : ℕ) (d h : ℚ) : (oscGenerate tr osc f w n d h).2.length = n := by
  unfold oscGenerate
  split
  · exact oscHarmFold_length tr w _ n h _ _
      (by rw [List.length_map, List.enum_length, linspaceCycles_length])
  · rw [List.length_map, List.enum_length, linspaceCycles_length]

theorem noiseSubGenerate_length (tr : Trans) (m : NoiseSubModule) (main : List ℚ)
    (f : ℚ) (frames : ℕ) (h : main.length = frames) :
    (noiseSubGenerate tr m main f frames).length = frames := by
  unfold noiseSubGenerate
  rw [show List.range' 2 3 = [2, 3, 4] from rfl]
  simp only [List.foldl_cons, List.foldl_nil]
  split_ifs <;>
    simp only [List.length_zipWith, sineArr, List.length_map, List.length_range, h,
      min_self]

theorem adsrProcess_length : ∀ (a : ADSR) (n : ℕ), (adsrProcess a n).2.length = n
  | _, 0 => rfl
  | a, n + 1 => by
    show (_ :: (adsrProcess (adsrStep a).1 n).2).length = _
    rw [List.length_cons, adsrProcess_length _ n]

theorem filterProcess_length (cosw0 alpha : ℚ) (f : Filter) (signal : List ℚ)
    (f2 : Filter) (out : List ℚ)
    (h : filterProcess cosw0 alpha f signal = some (f2, out)) :
    out.length = signal.length := by
  unfold filterProcess at h
  cases hc : filterCoeffs cosw0 alpha f.filterType with
  | none =>
    rw [hc] at h
    exact absurd h (by simp)
  | some c =>
    rw [hc] at h
    have h2 := congrArg Prod.snd (Option.some_inj.mp h)
    simp only at h2
    rw [← h2, List.length_map, filterRunStages_length]

theorem voiceOscSection_length (tr : Trans) (st : SynthState) (lfo : LFO)
    (vel freq : ℚ) (frames : ℕ) (lfoV : List ℚ) (oscs : List Oscillator)
    (hl : lfoV.length = frames) :
    (voiceOscSection tr st lfo vel freq frames lfoV oscs).2.length = frames := by
  unfold voiceOscSection
  generalize oscs.enum = l
  suffices hgen : ∀ (l : List (ℕ × Oscillator)) (acc : List Oscillator × List ℚ),
      acc.2.length = frames →
      ((l.foldl (fun acc p =>
        if 1/1000 < st.oscMix.getD p.1 0 then
          (acc.1 ++ [(oscGenerate tr p.2 freq (st.oscWaveforms.getD p.1 .sine) frames
              (st.oscDetune.getD p.1 0) (st.oscHarmonics.getD p.1 0)).1],
           List.zipWith (· + ·) acc.2
             (if lfoHasTarget lfo (oscMixName p.1) then
               List.zipWith (fun s lv => s * (st.oscMix.getD p.1 0 * (1 + lv)) * vel)
                 (oscGenerate tr p.2 freq (st.oscWaveforms.getD p.1 .sine) frames
                   (st.oscDetune.getD p.1 0) (st.oscHarmonics.getD p.1 0)).2 lfoV
             else
               (oscGenerate tr p.2 freq (st.oscWaveforms.getD p.1 .sine) frames
                 (st.oscDetune.getD p.1 0) (st.oscHarmonics.getD p.1 0)).2.map
                 (fun s => s * st.oscMix.getD p.1 0 * vel)))
        else (acc.1 ++ [p.2], acc.2)) acc).2.length = frames) by
    exact hgen l _ (by simp)
  intro l
  induction l with
  | nil => intro acc h; exact h
  | cons p rest ih =>
    intro acc h
    rw [List.foldl_cons]
    refine ih _ ?_
    by_cases hc : 1/1000 < st.oscMix.getD p.1 0
    · rw [if_pos hc]
      show (List.zipWith _ acc.2 _).length = frames
      rw [List.length_zipWith, h]
      by_cases ht : lfoHasTarget lfo (oscMixName p.1) = true
      · rw [if_pos ht]
        simp only [List.length_zipWith, oscGenerate_length, hl, min_self]
      · rw [if_neg ht]
        simp only [List.length_map, oscGenerate_length, min_self]
    · rw [if_neg hc]
      exact h

theorem voiceProcess_length (tr : Trans) (st : SynthState) (v : Voice) (frames : ℕ)
    (r : Voice × SynthState × List ℚ) (h : voiceProcess tr st v frames = some r) :
    r.2.2.length = frames := by
  unfold voiceProcess at h
  dsimp only at h
  split at h
  · rw [← Option.some_inj.mp h]
    simp
  · split at h
    · rw [← Option.some_inj.mp h]
      simp
    · split at h
      · rw [← Option.some_inj.mp h]
        simp
      · split at h
        · exact absurd h (by simp)
        · split at h
          · exact absurd h (by simp)
          · rename_i fr heq
            rw [← Option.some_inj.mp h]
            dsimp only
            split at heq
            · have hlen := filterProcess_length _ _ _ _ fr.1 fr.2 (by rw [heq])
              rw [hlen]
              split
              · rw [List.length_zipWith, adsrProcess_length]
                have hns : ∀ m : NoiseSubModule,
                    (if _hc : True then (0 : ℕ) else 0) = 0 := fun _ => rfl
                split
                · rw [noiseSubGenerate_length _ _ _ _ _ (by
                    split
                    · exact voiceOscSection_length _ _ _ _ _ _ _ _
                        (by rw [List.length_map, lfoGenerate_length])
                    · simp)]
                  exact min_self frames
                · split
                  · rw [voiceOscSection_length _ _ _ _ _ _ _ _
                      (by rw [List.length_map, lfoGenerate_length])]
                    exact min_self frames
                  · simp
              · split
                · exact noiseSubGenerate_length _ _ _ _ _ (by
                    split
                    · exact voiceOscSection_length _ _ _ _ _ _ _ _
                        (by rw [List.length_map, lfoGenerate_length])
                    · simp)
                · split
                  · exact voiceOscSection_length _ _ _ _ _ _ _ _
                      (by rw [List.length_map, lfoGenerate_length])
                  · simp
            · have h2 := congrArg Prod.snd (Option.some_inj.mp heq)
              dsimp only at h2
              rw [← h2]
              split
              · rw [List.length_zipWith, adsrProcess_length]
                split
                · rw [noiseSubGenerate_length _ _ _ _ _ (by
                    split
                    · exact voiceOscSection_length _ _ _ _ _ _ _ _
                        (by rw [List.length_map, lfoGenerate_length])
                    · simp)]
                  exact min_self frames
                · split
                  · rw [voiceOscSection_length _ _ _ _ _ _ _ _
                      (by rw [List.length_map, lfoGenerate_length])]
                    exact min_self frames
                  · simp
              · split
                · exact noiseSubGenerate_length _ _ _ _ _ (by
                    split
                    · exact voiceOscSection_length _ _ _ _ _ _ _ _
                        (by rw [List.length_map, lfoGenerate_length])
                    · simp)
                · split
                  · exact voiceOscSection_length _ _ _ _ _ _ _ _
                      (by rw [List.length_map, lfoGenerate_length])
                  · simp

theorem voiceLoop_length (tr : Trans) (frames : ℕ) (vs : List Voice) :
    ∀ (st : SynthState) (r : SynthState × List Voice × List ℚ × ℕ),
      voiceLoop tr frames st vs = some r → r.2.2.1.length = frames := by
  induction vs with
  | nil =>
    intro st r h
    simp only [voiceLoop] at h
    rw [← Option.some_inj.mp h]
    simp
  | cons v rest ih =>
    intro st r h
    simp only [voiceLoop] at h
    split at h
    · split at h
      · exact absurd h (by simp)
      · rename_i p hp
        split at h
        · exact absurd h (by simp)
        · rename_i q hq
          split at h
          · rw [← Option.some_inj.mp h]
            dsimp only
            rw [List.length_zipWith, ih _ _ hq,
              voiceProcess_length tr st v frames p hp, min_self]
          · rw [← Option.some_inj.mp h]
            dsimp only
            exact ih _ _ hq
    · split at h
      · exact absurd h (by simp)
      · rename_i q hq
        rw [← Option.some_inj.mp h]
        dsimp only
        exact ih _ _ hq

theorem processDelayLoop_length (feedback : ℚ) (ds : ℤ) (sig : List ℚ) :
    ∀ (i : ℕ) (buf : List ℚ) (idx : ℕ),
      (processDelayLoop feedback ds sig i buf idx).1.length = sig.length := by
  induction sig with
  | nil => intro i buf idx; rfl
  | cons x rest ih =>
    intro i buf idx
    simp only [processDelayLoop, List.length_cons]
    rw [ih]

theorem processReverbLoop_length (decay : ℚ) (offs : List ℤ) (sig : List ℚ) :
    ∀ (buf : List ℚ) (idx : ℕ),
      (processReverbLoop decay offs sig buf idx).1.length = sig.length := by
  induction sig with
  | nil => intro buf idx; rfl
  | cons x rest ih =>
    intro buf idx
    simp only [processReverbLoop, List.length_cons]
    rw [ih]

theorem effectWet_length (tr : Trans) (fx : SynthFx) (slot : FxSlot)
    (signal : List ℚ)
    (hch : ∀ r d s, (tr.chorusWet r d s).length = s.length)
    (hfl : ∀ r d s, (tr.flangerWet r d s).length = s.length)
    (hph : ∀ r d s, (tr.phaserWet r d s).length = s.length)
    (hdi : ∀ d s, (tr.distortionWet d s).length = s.length) :
    (effectWet tr fx slot signal).2.length = signal.length := by
  unfold effectWet
  split
  · exact hch _ _ _
  · split
    · exact hfl _ _ _
    · split
      · exact hph _ _ _
      · split
        · exact processReverbLoop_length _ _ _ _ _
        · split
          · exact processDelayLoop_length _ _ _ _ _ _
          · split
            · exact hdi _ _
            · simp

theorem processEffectsFold_length (tr : Trans)
    (hch : ∀ r d s, (tr.chorusWet r d s).length = s.length)
    (hfl : ∀ r d s, (tr.flangerWet r d s).length = s.length)
    (hph : ∀ r d s, (tr.phaserWet r d s).length = s.length)
    (hdi : ∀ d s, (tr.distortionWet d s).length = s.length)
    (slots : List FxSlot) :
    ∀ (acc : SynthFx × List ℚ),
      ((slots.foldl
        (fun (acc : SynthFx × List ℚ) slot =>
          if slot.ftype = "none" then acc
          else
            let w := effectWet tr acc.1 slot acc.2
            (w.1, List.zipWith (fun d e => d * (1 - slot.mix) + e * slot.mix)
              acc.2 w.2)) acc).2).length = acc.2.length := by
  induction slots with
  | nil => intro acc; rfl
  | cons slot rest ih =>
    intro acc
    simp only [List.foldl_cons]
    rw [ih]
    split
    · rfl
    · dsimp only
      rw [List.length_zipWith, effectWet_length tr _ _ _ hch hfl hph hdi,
        min_self]

theorem processEffects_length (tr : Trans) (fx : SynthFx) (slots : List FxSlot)
    (signal : List ℚ)
    (hch : ∀ r d s, (tr.chorusWet r d s).length = s.length)
    (hfl : ∀ r d s, (tr.flangerWet r d s).length = s.length)
    (hph : ∀ r d s, (tr.phaserWet r d s).length = s.length)
    (hdi : ∀ d s, (tr.distortionWet d s).length = s.length) :
    (processEffects tr fx slots signal).2.length = signal.length := by
  unfold processEffects
  dsimp only
  rw [List.length_map]
  exact processEffectsFold_length tr hch hfl hph hdi slots (fx, signal)

theorem audioCallbackBody_length (tr : Trans) (st : SynthState)
    (syn : Synthesizer) (frames : ℕ)
    (hch : ∀ r d s, (tr.chorusWet r d s).length = s.length)
    (hfl : ∀ r d s, (tr.flangerWet r d s).length = s.length)
    (hph : ∀ r d s, (tr.phaserWet r d s).length = s.length)
    (hdi : ∀ d s, (tr.distortionWet d s).length = s.length)
    (r : SynthState × Synthesizer × List ℚ)
    (h : audioCallbackBody tr st syn frames = some r) :
    r.2.2.length = frames := by
  unfold audioCallbackBody at h
  dsimp only at h
  split at h
  · exact absurd h (by simp)
  · rename_i q hq
    have hlen := voiceLoop_length tr frames syn.voices _ q hq
    split at h
    · rw [← Option.some_inj.mp h]
      dsimp only
      rw [processEffects_length tr _ _ _ hch hfl hph hdi]
      split
      · simp [hlen]
      · simp
    · rw [← Option.some_inj.mp h]
      dsimp only
      split
      · simp [hlen]
      · simp

theorem audioCallback_length (tr : Trans) (st : SynthState)
    (syn : Synthesizer) (frames : ℕ)
    (hch : ∀ r d s, (tr.chorusWet r d s).length = s.length)
    (hfl : ∀ r d s, (tr.flangerWet r d s).length = s.length)
    (hph : ∀ r d s, (tr.phaserWet r d s).length = s.length)
    (hdi : ∀ d s, (tr.distortionWet d s).length = s.length) :
    (audioCallback tr st syn frames).length = frames := by
  unfold audioCallback
  split
  · rename_i r hr
    exact audioCallbackBody_length tr st syn frames hch hfl hph hdi r hr
  · simp

/-- Claim C8 (render-fault containment): any fault raised while the buffer
is being built inside `_audio_callback` — modelled by `audioCallbackBody`
returning `none` — is caught at the callback boundary and the output buffer
is filled entirely with zeros for the requested frame count; a fault-free
body has its buffer passed through unchanged; and in either case the buffer
handed to the audio sink holds exactly `frames` samples, so no exception
crosses the real-time boundary.  The hypotheses say that the four pure
per-call effect kernels abstracted in `Trans` preserve buffer length, as
their numpy implementations do. -/
theorem claim8_render_fault_containment (tr : Trans) (st : SynthState)
    (syn : Synthesizer) (frames : ℕ)
    (hch : ∀ r d s, (tr.chorusWet r d s).length = s.length)
    (hfl : ∀ r d s, (tr.flangerWet r d s).length = s.length)
    (hph : ∀ r d s, (tr.phaserWet r d s).length = s.length)
    (hdi : ∀ d s, (tr.distortionWet d s).length = s.length) :
    (audioCallbackBody tr st syn frames = none →
      audioCallback tr st syn frames = List.replicate frames 0) ∧
    (∀ r, audioCallbackBody tr st syn frames = some r →
      audioCallback tr st syn frames = r.2.2) ∧
    (audioCallback tr st syn frames).length = frames := by
  refine ⟨fun h => ?_, fun r h => ?_, ?_⟩
  · unfold audioCallback
    rw [h]
  · unfold audioCallback
    rw [h]
  · exact audioCallback_length tr st syn frames hch hfl hph hdi

/-- Witness for C8: the default 16-voice synthesizer, the default shared
state and the dummy transcendental pack (whose effect kernels are
identities, hence length-preserving by `rfl`) at a 3-frame request. -/
theorem claim8_render_witness :
    (audioCallbackBody trZero stDefault Synthesizer.init 3 = none →
      audioCallback trZero stDefault Synthesizer.init 3 = List.replicate 3 0) ∧
    (∀ r, audioCallbackBody trZero stDefault Synthesizer.init 3 = some r →
      audioCallback trZero stDefault Synthesizer.init 3 = r.2.2) ∧
    (audioCallback trZero stDefault Synthesizer.init 3).length = 3 :=
  claim8_render_fault_containment trZero stDefault Synthesizer.init 3
    (fun _ _ _ => rfl) (fun _ _ _ => rfl) (fun _ _ _ => rfl) (fun _ _ => rfl)


end Synth
